import Mathlib

/-!
Verification development for the `chrome-bookmark-organizer` Rust backend
(`crates/a2a`, `crates/ai-ops-core`).  Rust data types and functions are
shallowly embedded as Lean structures and executable functions:

* `HashMap` is modelled as an association list (insertion order preserved);
* `u32`/`u64`/`usize` become `Nat`, `i32` becomes `Int` with explicit
  saturation, `f64`/`f32` become `ℚ` (no NaN arises in the modelled code);
* `Uuid` values and timestamps are environment inputs and are passed as
  explicit parameters; inert metadata fields (raw JSON payloads, creation
  timestamps) that no modelled operation inspects are omitted;
* Rust's stable `sort_by` is modelled by a stable insertion sort on an
  `Ordering`-valued comparator;
* fallible operations return `Except String` (for `anyhow::Result`), and a
  state-mutating fallible method returns the post-state together with the
  `Except` outcome, matching the fact that side effects performed before an
  early `?`-return persist.
-/

deriving instance DecidableEq for Except

namespace BookmarkOrganizer

/-! ### Association lists, modelling `std::collections::HashMap` -/

section AList

variable {κ α : Type} [DecidableEq κ]

/-- `map.get(k).cloned()`: first binding of key `k`. -/
def alistGet : List (κ × α) → κ → Option α
  | [], _ => none
  | (k, v) :: rest, key => if k = key then some v else alistGet rest key

/-- `map.insert(k, v)`: replace the binding of `k`, or append a new one. -/
def alistSet : List (κ × α) → κ → α → List (κ × α)
  | [], key, val => [(key, val)]
  | (k, v) :: rest, key, val =>
      if k = key then (key, val) :: rest else (k, v) :: alistSet rest key val

/-- `if let Some(x) = map.get_mut(k) { *x = f(x) }`: update in place when
present, otherwise leave the map unchanged. -/
def alistUpdate : List (κ × α) → κ → (α → α) → List (κ × α)
  | [], _, _ => []
  | (k, v) :: rest, key, f =>
      if k = key then (key, f v) :: rest else (k, v) :: alistUpdate rest key f

theorem alistGet_set_self (l : List (κ × α)) (k : κ) (v : α) :
    alistGet (alistSet l k v) k = some v := by
  induction l with
  | nil => simp [alistGet, alistSet]
  | cons hd tl ih =>
      obtain ⟨k', v'⟩ := hd
      by_cases h : k' = k <;> simp [alistGet, alistSet, h, ih]

theorem alistGet_set_ne (l : List (κ × α)) (k k' : κ) (v : α) (h : k ≠ k') :
    alistGet (alistSet l k v) k' = alistGet l k' := by
  induction l with
  | nil => simp [alistGet, alistSet, h]
  | cons hd tl ih =>
      obtain ⟨k₀, v₀⟩ := hd
      by_cases h0 : k₀ = k
      · subst h0
        simp [alistGet, alistSet, h]
      · by_cases h1 : k₀ = k' <;> simp [alistGet, alistSet, h0, h1, ih, Ne.symm h]

theorem alistGet_update_self (l : List (κ × α)) (k : κ) (f : α → α) :
    alistGet (alistUpdate l k f) k = (alistGet l k).map f := by
  induction l with
  | nil => simp [alistGet, alistUpdate]
  | cons hd tl ih =>
      obtain ⟨k', v'⟩ := hd
      by_cases h : k' = k <;> simp [alistGet, alistUpdate, h, ih]

theorem alistGet_update_ne (l : List (κ × α)) (k k' : κ) (f : α → α) (h : k ≠ k') :
    alistGet (alistUpdate l k f) k' = alistGet l k' := by
  induction l with
  | nil => simp [alistUpdate]
  | cons hd tl ih =>
      obtain ⟨k₀, v₀⟩ := hd
      by_cases h0 : k₀ = k
      · subst h0
        simp [alistGet, alistUpdate, h]
      · by_cases h1 : k₀ = k' <;> simp [alistGet, alistUpdate, h0, h1, ih, Ne.symm h]

/-- Every value reachable through `alistGet` after an `alistSet` is either the
new value or was reachable before. -/
theorem alistGet_set_cases (l : List (κ × α)) (k : κ) (v : α) (k' : κ) (w : α)
    (h : alistGet (alistSet l k v) k' = some w) :
    w = v ∨ alistGet l k' = some w := by
  by_cases hk : k = k'
  · subst hk
    rw [alistGet_set_self] at h
    exact Or.inl (Option.some.inj h).symm
  · right
    rwa [alistGet_set_ne l k k' v hk] at h

theorem alistGet_update_cases (l : List (κ × α)) (k : κ) (f : α → α) (k' : κ) (w : α)
    (h : alistGet (alistUpdate l k f) k' = some w) :
    (∃ v, alistGet l k' = some v ∧ w = f v) ∨ alistGet l k' = some w := by
  by_cases hk : k = k'
  · subst hk
    rw [alistGet_update_self] at h
    left
    cases hv : alistGet l k with
    | none => rw [hv] at h; simp at h
    | some v =>
        rw [hv] at h
        exact ⟨v, rfl, (Option.some.inj h).symm⟩
  · right
    rwa [alistGet_update_ne l k k' f hk] at h

end AList

/-! ### Stable sort by comparator, modelling Rust's stable `slice::sort_by` -/

section SortByCmp

variable {α : Type} (cmp : α → α → Ordering)

/-- Insert `a` before the first element `b` with `cmp a b ≠ .gt`.  For a total
preorder comparator this realises the unique stable sorted order that Rust's
stable merge sort produces. -/
def insertCmp (a : α) : List α → List α
  | [] => [a]
  | b :: l => if cmp a b = Ordering.gt then b :: insertCmp a l else a :: b :: l

def sortByCmp : List α → List α
  | [] => []
  | a :: l => insertCmp cmp a (sortByCmp l)

/-- The non-strict order induced by a comparator. -/
def cmpLe (a b : α) : Prop := cmp a b ≠ Ordering.gt

theorem insertCmp_perm (a : α) (l : List α) :
    List.Perm (insertCmp cmp a l) (a :: l) := by
  induction l with
  | nil => exact List.Perm.refl _
  | cons b l ih =>
      by_cases h : cmp a b = Ordering.gt
      · simp only [insertCmp, h, if_pos]
        exact (ih.cons b).trans (List.Perm.swap a b l)
      · simp only [insertCmp, h, if_neg, not_false_iff]
        exact List.Perm.refl _

theorem sortByCmp_perm (l : List α) : List.Perm (sortByCmp cmp l) l := by
  induction l with
  | nil => exact List.Perm.refl _
  | cons a l ih => exact (insertCmp_perm cmp a (sortByCmp cmp l)).trans (ih.cons a)

theorem insertCmp_pairwise
    (htot : ∀ x y, cmp x y = Ordering.gt → cmp y x ≠ Ordering.gt)
    (htrans : ∀ x y z, cmpLe cmp x y → cmpLe cmp y z → cmpLe cmp x z)
    (a : α) (l : List α) (h : l.Pairwise (cmpLe cmp)) :
    (insertCmp cmp a l).Pairwise (cmpLe cmp) := by
  induction l with
  | nil => simp [insertCmp, cmpLe]
  | cons b l ih =>
      rcases List.pairwise_cons.mp h with ⟨hb, hl⟩
      by_cases hc : cmp a b = Ordering.gt
      · simp only [insertCmp, hc, if_pos]
        refine List.pairwise_cons.mpr ⟨?_, ih hl⟩
        intro x hx
        rcases List.mem_cons.mp ((insertCmp_perm cmp a l).mem_iff.mp hx) with hxa | hxl
        · rw [hxa]; exact htot a b hc
        · exact hb x hxl
      · simp only [insertCmp, hc, if_neg, not_false_iff]
        refine List.pairwise_cons.mpr ⟨?_, h⟩
        intro x hx
        rcases List.mem_cons.mp hx with hxb | hxl
        · rw [hxb]; exact hc
        · exact htrans a b x hc (hb x hxl)

theorem sortByCmp_pairwise
    (htot : ∀ x y, cmp x y = Ordering.gt → cmp y x ≠ Ordering.gt)
    (htrans : ∀ x y z, cmpLe cmp x y → cmpLe cmp y z → cmpLe cmp x z)
    (l : List α) : (sortByCmp cmp l).Pairwise (cmpLe cmp) := by
  induction l with
  | nil => simp [sortByCmp]
  | cons a l ih => exact insertCmp_pairwise cmp htot htrans a (sortByCmp cmp l) ih

theorem filter_insertCmp_pos (p : α → Bool) (a : α) (l : List α)
    (hpa : p a = true) (h : ∀ y, cmp a y = Ordering.gt → p y = false) :
    (insertCmp cmp a l).filter p = a :: l.filter p := by
  induction l with
  | nil => simp [insertCmp, hpa]
  | cons b l ih =>
      by_cases hc : cmp a b = Ordering.gt
      · have hpb := h b hc
        simp [insertCmp, hc, List.filter_cons, hpb, ih]
      · simp [insertCmp, hc, List.filter_cons, hpa]

theorem filter_insertCmp_neg (p : α → Bool) (a : α) (l : List α)
    (hpa : p a = false) :
    (insertCmp cmp a l).filter p = l.filter p := by
  induction l with
  | nil => simp [insertCmp, hpa]
  | cons b l ih =>
      by_cases hc : cmp a b = Ordering.gt
      · simp [insertCmp, hc, List.filter_cons, ih]
      · simp [insertCmp, hc, List.filter_cons, hpa]

/-- Stability on an equivalence class: elements on which the comparator is
always `eq` keep their relative input order. -/
theorem filter_sortByCmp (p : α → Bool)
    (hEq : ∀ x y, p x = true → p y = true → cmp x y = Ordering.eq)
    (l : List α) : (sortByCmp cmp l).filter p = l.filter p := by
  induction l with
  | nil => simp [sortByCmp]
  | cons a l ih =>
      by_cases hpa : p a = true
      · have step := filter_insertCmp_pos cmp p a (sortByCmp cmp l) hpa
          (fun y hy => by
            by_cases hpy : p y = true
            · rw [hEq a y hpa hpy] at hy; cases hy
            · simpa using hpy)
        simp only [sortByCmp]
        rw [step, ih, List.filter_cons, if_pos hpa]
      · have hpa' : p a = false := by simpa using hpa
        have step := filter_insertCmp_neg cmp p a (sortByCmp cmp l) hpa'
        simp only [sortByCmp]
        rw [step, ih, List.filter_cons, if_neg (by simp [hpa'])]

end SortByCmp

/-- Comparator on rationals, modelling `f64::partial_cmp(..).unwrap()` on the
(NaN-free) float values arising in the code. -/
def qCompare (a b : ℚ) : Ordering :=
  if a < b then Ordering.lt else if a = b then Ordering.eq else Ordering.gt

theorem qCompare_gt_iff (a b : ℚ) : qCompare a b = Ordering.gt ↔ b < a := by
  unfold qCompare
  by_cases h1 : a < b
  · simp only [if_pos h1]
    constructor
    · intro hc; exact Ordering.noConfusion hc
    · intro hb; exact absurd (h1.trans hb) (lt_irrefl a)
  · simp only [if_neg h1]
    by_cases h2 : a = b
    · subst h2
      simp only [if_pos rfl]
      constructor
      · intro hc; exact Ordering.noConfusion hc
      · intro hb; exact absurd hb (lt_irrefl a)
    · simp only [if_neg h2]
      constructor
      · intro _; exact lt_of_le_of_ne (not_lt.mp h1) (Ne.symm h2)
      · intro _; trivial

theorem qCompare_not_gt_iff (a b : ℚ) : qCompare a b ≠ Ordering.gt ↔ a ≤ b := by
  rw [Ne, qCompare_gt_iff, not_lt]

/-! ## `crates/a2a`: tasks, queue service, task manager -/

namespace A2A

/-- `task.rs` `TaskStatus`. -/
inductive TaskStatus
  | pending
  | running
  | completed
  | failed
  | cancelled
deriving DecidableEq

/-- `artifact.rs` `Message`.  The `Uuid` id, timestamp and metadata are
environment-generated and inspected by no modelled operation; they are
omitted. -/
structure Message where
  message_type : String
  content : String
deriving DecidableEq

def Message.info (content : String) : Message :=
  { message_type := "info", content := content }

def Message.error (content : String) : Message :=
  { message_type := "error", content := content }

/-- `artifact.rs` `Artifact` (id, creation time, `immutable` flag and metadata
omitted as inert; the JSON payload is kept opaque). -/
structure Artifact where
  artifact_type : String
  mime_type : String
  data : String
deriving DecidableEq

/-- `task.rs` `WorkflowState`. -/
structure WorkflowState where
  workflow_type : String
  agents : List String
  current_agent : Option String
  current_step : Nat
  total_steps : Nat
deriving DecidableEq

/-- `task.rs` `A2ATask` (creation/update timestamps and metadata omitted as
inert; the JSON context is kept opaque). -/
structure A2ATask where
  id : String
  task_type : String
  status : TaskStatus
  artifacts : List Artifact
  messages : List Message
  workflow : WorkflowState
  context : String
deriving DecidableEq

/-- `A2ATask::new` — the generated id is passed explicitly. -/
def A2ATask.new (id task_type workflow_type : String) (agents : List String)
    (context : String) : A2ATask :=
  { id := id
    task_type := task_type
    status := TaskStatus.pending
    artifacts := []
    messages := []
    workflow :=
      { workflow_type := workflow_type
        agents := agents
        current_agent := none
        current_step := 0
        total_steps := agents.length }
    context := context }

def A2ATask.add_artifact (t : A2ATask) (a : Artifact) : A2ATask :=
  { t with artifacts := t.artifacts ++ [a] }

def A2ATask.add_message (t : A2ATask) (m : Message) : A2ATask :=
  { t with messages := t.messages ++ [m] }

def A2ATask.update_status (t : A2ATask) (s : TaskStatus) : A2ATask :=
  { t with status := s }

/-- `A2ATask::next_agent`: returns the agent moved to (if any) together with
the mutated task. -/
def A2ATask.next_agent (t : A2ATask) : Option String × A2ATask :=
  if t.workflow.current_step < t.workflow.total_steps then
    match t.workflow.agents[t.workflow.current_step]? with
    | some agent =>
        (some agent,
          { t with
              workflow :=
                { t.workflow with
                    current_agent := some agent
                    current_step := t.workflow.current_step + 1 } })
    | none => (none, t)
  else (none, t)

/-- `queue.rs` `QueueTask`.  `priority: i32` is an `Int` kept in range by the
operations; `data` is the two-field JSON object built in
`queue_next_agent`; `created_at` is omitted as inert. -/
structure QueueTask where
  task_id : String
  task_type : String
  priority : Int
  attempts : Nat
  data : List (String × String)
deriving DecidableEq

/-- `i32::saturating_sub`. -/
def i32_saturating_sub (a b : Int) : Int :=
  min (max (a - b) (-(2 ^ 31))) (2 ^ 31 - 1)

/-- `queue.rs` `QueueService`: the Redis sorted sets, keyed by queue name.
Scores are determined by the member's `priority` field, so only the member
lists are carried. -/
structure QueueService where
  queues : List (String × List QueueTask)
deriving DecidableEq

/-- Members of a queue (`ZRANGE`-view of a sorted set). -/
def QueueService.tasksIn (qs : QueueService) (queue_name : String) : List QueueTask :=
  (alistGet qs.queues queue_name).getD []

/-- `QueueService::enqueue`: `ZADD queue_name (-priority) task_json`.  A
sorted set holds each member at most once. -/
def QueueService.enqueue (qs : QueueService) (queue_name : String) (task : QueueTask) :
    QueueService :=
  let cur := qs.tasksIn queue_name
  ⟨alistSet qs.queues queue_name (if task ∈ cur then cur else cur ++ [task])⟩

/-- `BZPOPMIN`: pop the member with the lowest score, i.e. the highest
`priority` (ties resolved deterministically towards the earlier member). -/
def popHighestPriority : List QueueTask → Option (QueueTask × List QueueTask)
  | [] => none
  | t :: ts =>
      match popHighestPriority ts with
      | none => some (t, [])
      | some (u, rest) =>
          if t.priority < u.priority then some (u, t :: rest) else some (t, ts)

/-- `QueueService::dequeue` (the blocking timeout is dropped: `none` models a
timeout on an empty queue). -/
def QueueService.dequeue (qs : QueueService) (queue_name : String) :
    Option (QueueTask × QueueService) :=
  match popHighestPriority (qs.tasksIn queue_name) with
  | none => none
  | some (t, rest) => some (t, ⟨alistSet qs.queues queue_name rest⟩)

/-- `QueueService::requeue`. -/
def QueueService.requeue (qs : QueueService) (queue_name : String) (task : QueueTask) :
    QueueService :=
  let task := { task with attempts := task.attempts + 1 }
  if task.attempts > 3 then
    qs.enqueue (queue_name ++ ":dead") task
  else
    qs.enqueue queue_name { task with priority := i32_saturating_sub task.priority 10 }

/-- `queue.rs` `TaskQueue` constants. -/
def TaskQueue.IMPORT : String := "a2a:queue:import"

def TaskQueue.VALIDATION : String := "a2a:queue:validation"

def TaskQueue.ENRICHMENT : String := "a2a:queue:enrichment"

def TaskQueue.CATEGORIZATION : String := "a2a:queue:categorization"

def TaskQueue.EMBEDDING : String := "a2a:queue:embedding"

/-- `manager.rs` `WorkflowDefinition`. -/
structure WorkflowDefinition where
  name : String
  agents : List String
  description : String
deriving DecidableEq

/-- `manager.rs` `TaskManager` state.  Registered agents are carried by their
`agent_type` key; the behaviour of `A2AAgent::execute_task` is an explicit
parameter of `process_task`. -/
structure ManagerState where
  agents : List String
  tasks : List (String × A2ATask)
  workflows : List (String × WorkflowDefinition)
  queue_service : QueueService
deriving DecidableEq

/-- The queue-name `match` inside `TaskManager::queue_next_agent`. -/
def queueNameFor (agent : String) : Option String :=
  if agent = "import" then some TaskQueue.IMPORT
  else if agent = "validation" then some TaskQueue.VALIDATION
  else if agent = "enrichment" then some TaskQueue.ENRICHMENT
  else if agent = "categorization" then some TaskQueue.CATEGORIZATION
  else if agent = "embedding" then some TaskQueue.EMBEDDING
  else none

/-- `TaskManager::queue_next_agent`.  The post-state is returned together with
the `Result`, because mutations made before an early `?`-return persist. -/
def queue_next_agent (st : ManagerState) (task_id : String) :
    ManagerState × Except String Unit :=
  match alistGet st.tasks task_id with
  | none => (st, Except.error ("Task not found: " ++ task_id))
  | some task =>
      match task.next_agent with
      | (some next, task') =>
          let st' : ManagerState := { st with tasks := alistSet st.tasks task_id task' }
          let queue_task : QueueTask :=
            { task_id := task_id
              task_type := next
              priority := 10
              attempts := 0
              data := [("taskId", task_id), ("agentType", next)] }
          match queueNameFor next with
          | none => (st', Except.error ("Unknown agent type: " ++ next))
          | some queue_name =>
              ({ st' with queue_service := st'.queue_service.enqueue queue_name queue_task },
                Except.ok ())
      | (none, task') =>
          let task'' := (task'.update_status TaskStatus.completed).add_message
            (Message.info "Workflow completed successfully")
          ({ st with tasks := alistSet st.tasks task_id task'' }, Except.ok ())

/-- `TaskManager::update_task_status`. -/
def update_task_status (st : ManagerState) (task_id : String) (status : TaskStatus) :
    ManagerState × Except String Unit :=
  match alistGet st.tasks task_id with
  | some _ =>
      ({ st with tasks := alistUpdate st.tasks task_id (fun t => t.update_status status) },
        Except.ok ())
  | none => (st, Except.error ("Task not found: " ++ task_id))

/-- `TaskManager::process_task`.  `exec` is the behaviour of the registered
agents' `execute_task`; the snapshot of the task taken before the status
update is what the agent receives, as in the source. -/
def process_task (exec : String → A2ATask → Except String (List Artifact))
    (st : ManagerState) (task_id agent_type : String) :
    ManagerState × Except String Unit :=
  match alistGet st.tasks task_id with
  | none => (st, Except.error ("Task not found: " ++ task_id))
  | some task =>
      if st.agents.contains agent_type then
        let st1 : ManagerState :=
          { st with tasks := (alistUpdate st.tasks task_id
              (fun t => t.update_status TaskStatus.running)) }
        match exec agent_type task with
        | Except.ok artifacts =>
            let st2 : ManagerState :=
              { st1 with tasks := alistUpdate st1.tasks task_id (fun t =>
                  (artifacts.foldl A2ATask.add_artifact t).add_message
                    (Message.info ("Agent " ++ agent_type ++ " completed successfully"))) }
            queue_next_agent st2 task_id
        | Except.error e =>
            ({ st1 with tasks := alistUpdate st1.tasks task_id (fun t =>
                (t.add_message (Message.error ("Agent " ++ agent_type ++ " failed: " ++ e))
                  ).update_status TaskStatus.failed) },
              Except.ok ())
      else (st, Except.error ("Agent not found: " ++ agent_type))

/-- `TaskManager::process_queue` (single poll). -/
def process_queue (exec : String → A2ATask → Except String (List Artifact))
    (st : ManagerState) (queue_name agent_type : String) :
    ManagerState × Except String Unit :=
  match st.queue_service.dequeue queue_name with
  | none => (st, Except.ok ())
  | some (queue_task, qs') =>
      let st1 : ManagerState := { st with queue_service := qs' }
      match process_task exec st1 queue_task.task_id agent_type with
      | (st2, Except.ok _) => (st2, Except.ok ())
      | (st2, Except.error _) =>
          ({ st2 with queue_service := st2.queue_service.requeue queue_name queue_task },
            Except.ok ())

theorem tasksIn_enqueue_self (qs : QueueService) (qn : String) (t : QueueTask) :
    t ∈ (qs.enqueue qn t).tasksIn qn := by
  unfold QueueService.enqueue QueueService.tasksIn
  rw [alistGet_set_self]
  by_cases h : t ∈ (alistGet qs.queues qn).getD []
  · simp [QueueService.tasksIn, h]
  · simp [QueueService.tasksIn, h]

theorem tasksIn_enqueue_ne (qs : QueueService) (qn q' : String) (t : QueueTask)
    (h : qn ≠ q') : (qs.enqueue qn t).tasksIn q' = qs.tasksIn q' := by
  unfold QueueService.enqueue QueueService.tasksIn
  rw [alistGet_set_ne _ _ _ _ h]

theorem ne_append_dead (q : String) : q ≠ q ++ ":dead" := by
  intro h
  have hlen := congrArg String.length h
  rw [String.length_append] at hlen
  have h5 : (":dead" : String).length = 5 := rfl
  rw [h5] at hlen
  omega

end A2A

/-- Claim C1: on a stored task, `queue_next_agent` either (when
`current_step < total_steps`) sets `current_agent` to `agents[current_step]`,
increments `current_step`, and enqueues a `QueueTask` with `priority = 10` and
`attempts = 0` onto the queue selected by the agent-type string; or else marks
the task completed and appends an info message. -/
theorem c1_queue_next_agent
    (st : A2A.ManagerState) (task_id : String) (t : A2A.A2ATask)
    (hget : alistGet st.tasks task_id = some t) :
    (∀ agent queue_name,
        t.workflow.agents[t.workflow.current_step]? = some agent →
        A2A.queueNameFor agent = some queue_name →
        t.workflow.current_step < t.workflow.total_steps →
        (A2A.queue_next_agent st task_id).2 = Except.ok () ∧
        (∃ t', alistGet (A2A.queue_next_agent st task_id).1.tasks task_id = some t' ∧
          t'.workflow.current_agent = some agent ∧
          t'.workflow.current_step = t.workflow.current_step + 1 ∧
          t'.status = t.status ∧ t'.messages = t.messages) ∧
        ({ task_id := task_id, task_type := agent, priority := 10, attempts := 0,
           data := [("taskId", task_id), ("agentType", agent)] } : A2A.QueueTask)
          ∈ (A2A.queue_next_agent st task_id).1.queue_service.tasksIn queue_name) ∧
    (t.workflow.total_steps ≤ t.workflow.current_step →
        (A2A.queue_next_agent st task_id).2 = Except.ok () ∧
        ∃ t', alistGet (A2A.queue_next_agent st task_id).1.tasks task_id = some t' ∧
          t'.status = A2A.TaskStatus.completed ∧
          t'.messages = t.messages ++ [A2A.Message.info "Workflow completed successfully"] ∧
          t'.workflow = t.workflow) := by
  constructor
  · intro agent queue_name hagent hqn hlt
    have hna : t.next_agent =
        (some agent,
          { t with workflow :=
              { t.workflow with
                  current_agent := some agent
                  current_step := t.workflow.current_step + 1 } }) := by
      unfold A2A.A2ATask.next_agent
      rw [if_pos hlt, hagent]
    simp only [A2A.queue_next_agent, hget, hna, hqn]
    refine ⟨trivial, ⟨_, alistGet_set_self _ _ _, rfl, rfl, rfl, rfl⟩, ?_⟩
    exact A2A.tasksIn_enqueue_self _ _ _
  · intro hge
    have hna : t.next_agent = (none, t) := by
      unfold A2A.A2ATask.next_agent
      rw [if_neg (not_lt.mpr hge)]
    simp only [A2A.queue_next_agent, hget, hna]
    exact ⟨trivial, _, alistGet_set_self _ _ _, rfl, rfl, rfl⟩

def c1Task : A2A.A2ATask :=
  A2A.A2ATask.new "t1" "bookmark_processing" "Bookmark Processing" ["import"] "ctx"

def c1St : A2A.ManagerState :=
  { agents := ["import"], tasks := [("t1", c1Task)], workflows := [],
    queue_service := ⟨[]⟩ }

theorem c1_witness :
    (A2A.queue_next_agent c1St "t1").2 = Except.ok () ∧
    ({ task_id := "t1", task_type := "import", priority := 10, attempts := 0,
       data := [("taskId", "t1"), ("agentType", "import")] } : A2A.QueueTask)
      ∈ (A2A.queue_next_agent c1St "t1").1.queue_service.tasksIn A2A.TaskQueue.IMPORT := by
  have h := (c1_queue_next_agent c1St "t1" c1Task (by decide)).1 "import"
    A2A.TaskQueue.IMPORT (by decide) (by decide) (by decide)
  exact ⟨h.1, h.2.2⟩

/-- One failed poll of the queue: dequeue the best task and requeue it, as the
error path of `process_queue` does. -/
def c2Step (qs : A2A.QueueService) (q : String) : A2A.QueueService :=
  match qs.dequeue q with
  | some (t, qs') => qs'.requeue q t
  | none => qs

def c2Task : A2A.QueueTask :=
  { task_id := "tk", task_type := "import", priority := 10, attempts := 0, data := [] }

def c2St0 : A2A.QueueService :=
  A2A.QueueService.enqueue ⟨[]⟩ "a2a:queue:import" c2Task

/-- Claim C2: `requeue` increments `attempts`; above three attempts the task
goes to the dead-letter queue and not back to the primary queue, otherwise it
is re-enqueued with priority lowered by a saturating 10.  A task enqueued with
`attempts = 0` and requeued four times ends in the dead-letter queue with
`attempts = 4` and is absent from the primary queue. -/
theorem c2_requeue :
    (∀ (qs : A2A.QueueService) (q : String) (t : A2A.QueueTask),
      (3 < t.attempts + 1 →
        (A2A.QueueService.requeue qs q t).tasksIn q = qs.tasksIn q ∧
        ({ t with attempts := t.attempts + 1 } : A2A.QueueTask)
          ∈ (A2A.QueueService.requeue qs q t).tasksIn (q ++ ":dead")) ∧
      (t.attempts + 1 ≤ 3 →
        (A2A.QueueService.requeue qs q t).tasksIn (q ++ ":dead") =
          qs.tasksIn (q ++ ":dead") ∧
        ({ t with
            attempts := t.attempts + 1
            priority := A2A.i32_saturating_sub t.priority 10 } : A2A.QueueTask)
          ∈ (A2A.QueueService.requeue qs q t).tasksIn q)) ∧
    ((c2Step (c2Step (c2Step (c2Step c2St0 "a2a:queue:import") "a2a:queue:import")
        "a2a:queue:import") "a2a:queue:import").tasksIn "a2a:queue:import" = [] ∧
     (c2Step (c2Step (c2Step (c2Step c2St0 "a2a:queue:import") "a2a:queue:import")
        "a2a:queue:import") "a2a:queue:import").tasksIn "a2a:queue:import:dead" =
       [{ c2Task with attempts := 4, priority := -20 }]) := by
  constructor
  · intro qs q t
    constructor
    · intro h3
      unfold A2A.QueueService.requeue
      rw [if_pos h3]
      exact ⟨A2A.tasksIn_enqueue_ne _ _ _ _ (Ne.symm (A2A.ne_append_dead q)),
        A2A.tasksIn_enqueue_self _ _ _⟩
    · intro hle
      unfold A2A.QueueService.requeue
      rw [if_neg (not_lt.mpr hle)]
      exact ⟨A2A.tasksIn_enqueue_ne _ _ _ _ (A2A.ne_append_dead q),
        A2A.tasksIn_enqueue_self _ _ _⟩
  · constructor
    · decide
    · decide

namespace A2A

/-- `current_step` never exceeds `total_steps`. -/
def TaskStepBound (t : A2ATask) : Prop :=
  t.workflow.current_step ≤ t.workflow.total_steps

/-- Every task stored in the manager satisfies `TaskStepBound`. -/
def TasksStepBound (st : ManagerState) : Prop :=
  ∀ id t, alistGet st.tasks id = some t → TaskStepBound t

theorem next_agent_stepBound (t : A2ATask) (h : TaskStepBound t) :
    TaskStepBound t.next_agent.2 := by
  unfold A2ATask.next_agent
  split_ifs with hlt
  · cases hma : t.workflow.agents[t.workflow.current_step]? with
    | some agent =>
        simp only [hma]
        exact hlt
    | none =>
        simp only [hma]
        exact h
  · exact h

theorem mem_of_getElem_opt {α : Type} (l : List α) (i : Nat) (a : α)
    (h : l[i]? = some a) : a ∈ l := by
  induction l generalizing i with
  | nil => simp at h
  | cons b t ih =>
      cases i with
      | zero =>
          simp only [List.getElem?_cons_zero, Option.some.injEq] at h
          rw [← h]
          exact List.mem_cons_self b t
      | succ n =>
          simp only [List.getElem?_cons_succ] at h
          exact List.mem_cons_of_mem _ (ih n h)

theorem next_agent_fst_mem (t : A2ATask) (a : String) (h : t.next_agent.1 = some a) :
    a ∈ t.workflow.agents := by
  unfold A2ATask.next_agent at h
  split_ifs at h with hlt
  · cases hma : t.workflow.agents[t.workflow.current_step]? with
    | some agent =>
        rw [hma] at h
        simp only [Option.some.injEq] at h
        rw [← h]
        exact mem_of_getElem_opt _ _ _ hma
    | none =>
        rw [hma] at h
        cases h

theorem stepBound_alistSet (tasks : List (String × A2ATask)) (id : String)
    (v : A2ATask) (hv : TaskStepBound v)
    (h : ∀ k t, alistGet tasks k = some t → TaskStepBound t) :
    ∀ k t, alistGet (alistSet tasks id v) k = some t → TaskStepBound t := by
  intro k t ht
  rcases alistGet_set_cases tasks id v k t ht with h1 | h2
  · rw [h1]; exact hv
  · exact h k t h2

theorem stepBound_alistUpdate (tasks : List (String × A2ATask)) (id : String)
    (f : A2ATask → A2ATask) (hf : ∀ t, TaskStepBound t → TaskStepBound (f t))
    (h : ∀ k t, alistGet tasks k = some t → TaskStepBound t) :
    ∀ k t, alistGet (alistUpdate tasks id f) k = some t → TaskStepBound t := by
  intro k t ht
  rcases alistGet_update_cases tasks id f k t ht with ⟨v, hv, h1⟩ | h2
  · rw [h1]; exact hf v (h k v hv)
  · exact h k t h2

theorem queue_next_agent_stepBound (st : ManagerState) (h : TasksStepBound st)
    (id : String) : TasksStepBound (queue_next_agent st id).1 := by
  unfold queue_next_agent
  cases hget : alistGet st.tasks id with
  | none => simp only []; exact h
  | some task =>
      rcases hna : task.next_agent with ⟨o, t'⟩
      have ht' : TaskStepBound t' := by
        have hb := next_agent_stepBound task (h id task hget)
        rwa [hna] at hb
      cases o with
      | some next =>
          simp only [hna]
          cases hqn : queueNameFor next with
          | none =>
              simp only [hqn]
              exact fun k u hu => stepBound_alistSet st.tasks id t' ht' h k u hu
          | some qn =>
              simp only [hqn]
              exact fun k u hu => stepBound_alistSet st.tasks id t' ht' h k u hu
      | none =>
          simp only [hna]
          exact fun k u hu => stepBound_alistSet st.tasks id
            ((t'.update_status TaskStatus.completed).add_message
              (Message.info "Workflow completed successfully")) ht' h k u hu

theorem foldl_add_artifact_workflow (arts : List Artifact) (t : A2ATask) :
    (arts.foldl A2ATask.add_artifact t).workflow = t.workflow := by
  induction arts generalizing t with
  | nil => rfl
  | cons a l ih => exact ih (t.add_artifact a)

theorem process_task_stepBound (exec : String → A2ATask → Except String (List Artifact))
    (st : ManagerState) (id atype : String) (h : TasksStepBound st) :
    TasksStepBound (process_task exec st id atype).1 := by
  unfold process_task
  cases hget : alistGet st.tasks id with
  | none => simp only []; exact h
  | some task =>
      by_cases hc : st.agents.contains atype
      · simp only [hc, if_true]
        have h1 : ∀ k t, alistGet (alistUpdate st.tasks id
            (fun t => t.update_status TaskStatus.running)) k = some t → TaskStepBound t :=
          stepBound_alistUpdate st.tasks id _ (fun t hb => hb) h
        cases hexec : exec atype task with
        | ok artifacts =>
            simp only [hexec]
            apply queue_next_agent_stepBound
            intro k t ht
            refine stepBound_alistUpdate _ id _ ?_ h1 k t ht
            intro u hu
            unfold TaskStepBound
            simp only [A2ATask.add_message, foldl_add_artifact_workflow]
            exact hu
        | error e =>
            simp only [hexec]
            exact fun k t ht => stepBound_alistUpdate _ id
              (fun t => (t.add_message (Message.error
                ("Agent " ++ atype ++ " failed: " ++ e))).update_status TaskStatus.failed)
              (fun u hu => hu) h1 k t ht
      · simp only [hc, if_false]
        exact h

theorem queue_next_agent_ok (st : ManagerState) (id : String) (task : A2ATask)
    (hget : alistGet st.tasks id = some task)
    (hvalid : ∀ a ∈ task.workflow.agents, (queueNameFor a).isSome = true) :
    (queue_next_agent st id).2 = Except.ok () := by
  unfold queue_next_agent
  rcases hna : task.next_agent with ⟨o, t'⟩
  cases o with
  | some next =>
      have hmem : next ∈ task.workflow.agents :=
        next_agent_fst_mem task next (by rw [hna])
      have hsome := hvalid next hmem
      cases hqn : queueNameFor next with
      | none => rw [hqn] at hsome; cases hsome
      | some qn => simp only [hget, hna, hqn]
  | none => simp only [hget, hna]

end A2A

def c3Task : A2A.A2ATask :=
  { id := "t1"
    task_type := "bookmark_processing"
    status := A2A.TaskStatus.completed
    artifacts := []
    messages := []
    workflow :=
      { workflow_type := "Bookmark Processing"
        agents := ["import"]
        current_agent := some "import"
        current_step := 1
        total_steps := 1 }
    context := "ctx" }

def c3St : A2A.ManagerState :=
  { agents := ["import"], tasks := [("t1", c3Task)], workflows := [],
    queue_service := ⟨[]⟩ }

/-- Counterexample to claim C3 as stated: a task in the terminal state
`completed` is mutated again — `update_task_status` overwrites its status
unconditionally. -/
theorem c3_counterexample :
    c3Task.status = A2A.TaskStatus.completed ∧
    (∃ t', alistGet (A2A.update_task_status c3St "t1" A2A.TaskStatus.running).1.tasks "t1"
        = some t' ∧ t'.status = A2A.TaskStatus.running) ∧
    A2A.TaskStatus.running ≠ A2A.TaskStatus.completed := by
  refine ⟨rfl, ⟨⟨{ c3Task with status := A2A.TaskStatus.running }, ?_, rfl⟩, by decide⟩⟩
  decide

/-- Claim C3, amended: `0 ≤ current_step ≤ total_steps` is an invariant —
it holds of every freshly created task and is preserved by
`update_task_status`, `queue_next_agent` and `process_task` — but terminal
status is not protected: those operations mutate a task regardless of its
status (see the counterexample). -/
theorem c3_step_bound (st : A2A.ManagerState) (h : A2A.TasksStepBound st) :
    (∀ id ty wf agents ctx, A2A.TaskStepBound (A2A.A2ATask.new id ty wf agents ctx)) ∧
    (∀ id status, A2A.TasksStepBound (A2A.update_task_status st id status).1) ∧
    (∀ id, A2A.TasksStepBound (A2A.queue_next_agent st id).1) ∧
    (∀ exec id atype, A2A.TasksStepBound (A2A.process_task exec st id atype).1) := by
  refine ⟨?_, ?_, ?_, ?_⟩
  · intro id ty wf agents ctx
    exact Nat.zero_le _
  · intro id status
    unfold A2A.update_task_status
    cases hget : alistGet st.tasks id with
    | none => simp only []; exact h
    | some task =>
        simp only []
        exact fun k t ht =>
          A2A.stepBound_alistUpdate st.tasks id
            (fun t => t.update_status status) (fun u hu => hu) h k t ht
  · intro id
    exact A2A.queue_next_agent_stepBound st h id
  · intro exec id atype
    exact A2A.process_task_stepBound exec st id atype h

theorem c3_witness :
    A2A.TasksStepBound (A2A.update_task_status c1St "t1" A2A.TaskStatus.running).1 := by
  have hsb : A2A.TasksStepBound c1St := by
    intro id t ht
    unfold c1St at ht
    simp only [alistGet] at ht
    split at ht
    · injection ht with hh
      rw [← hh]
      show c1Task.workflow.current_step ≤ c1Task.workflow.total_steps
      decide
    · cases ht
  exact (c3_step_bound c1St hsb).2.1 "t1" A2A.TaskStatus.running

/-- Claim C4: an agent-execution failure is absorbed into the task state —
`process_task` still returns `Ok`, appends an error message and marks the
task failed — and `process_task` returns an error (triggering the consumer's
requeue) only when the task is missing or the agent is not registered. -/
theorem c4_process_task_absorbs_failure
    (exec : String → A2A.A2ATask → Except String (List A2A.Artifact))
    (st : A2A.ManagerState) (task_id agent_type : String) :
    (∀ task e, alistGet st.tasks task_id = some task →
        st.agents.contains agent_type = true →
        exec agent_type task = Except.error e →
        (A2A.process_task exec st task_id agent_type).2 = Except.ok () ∧
        ∃ t', alistGet (A2A.process_task exec st task_id agent_type).1.tasks task_id
            = some t' ∧
          t'.status = A2A.TaskStatus.failed ∧
          t'.messages = task.messages ++
            [A2A.Message.error ("Agent " ++ agent_type ++ " failed: " ++ e)]) ∧
    (∀ st' e,
        (∀ task, alistGet st.tasks task_id = some task →
          ∀ a ∈ task.workflow.agents, (A2A.queueNameFor a).isSome = true) →
        A2A.process_task exec st task_id agent_type = (st', Except.error e) →
        alistGet st.tasks task_id = none ∨
          st.agents.contains agent_type = false) := by
  constructor
  · intro task e hget hc hexec
    unfold A2A.process_task
    simp only [hget, hc, if_true, hexec]
    refine ⟨trivial, ?_⟩
    have h1 : alistGet (alistUpdate st.tasks task_id
        (fun t => t.update_status A2A.TaskStatus.running)) task_id
        = some (task.update_status A2A.TaskStatus.running) := by
      rw [alistGet_update_self, hget]; rfl
    have h2 := alistGet_update_self (alistUpdate st.tasks task_id
        (fun t => t.update_status A2A.TaskStatus.running)) task_id
        (fun t => (t.add_message (A2A.Message.error
          ("Agent " ++ agent_type ++ " failed: " ++ e))).update_status
            A2A.TaskStatus.failed)
    rw [h1] at h2
    exact ⟨_, h2, rfl, rfl⟩
  · intro st' e hvalid heq
    cases hget : alistGet st.tasks task_id with
    | none => exact Or.inl rfl
    | some task =>
        by_cases hc : st.agents.contains agent_type
        · exfalso
          have hok : (A2A.process_task exec st task_id agent_type).2 = Except.ok () := by
            unfold A2A.process_task
            simp only [hget, hc, if_true]
            cases hexec : exec agent_type task with
            | ok artifacts =>
                simp only []
                apply A2A.queue_next_agent_ok _ task_id
                    ((artifacts.foldl A2A.A2ATask.add_artifact
                        (task.update_status A2A.TaskStatus.running)).add_message
                      (A2A.Message.info ("Agent " ++ agent_type ++
                        " completed successfully")))
                · rw [alistGet_update_self, alistGet_update_self, hget]
                  rfl
                · intro a ha
                  refine hvalid task hget a ?_
                  simpa [A2A.A2ATask.add_message,
                    A2A.foldl_add_artifact_workflow] using ha
            | error e2 => simp only []
          rw [heq] at hok
          cases hok
        · exact Or.inr (by simpa using hc)

def c4ExecFail : String → A2A.A2ATask → Except String (List A2A.Artifact) :=
  fun _ _ => Except.error "boom"

theorem c4_witness :
    (A2A.process_task c4ExecFail c1St "t1" "import").2 = Except.ok () ∧
    ∃ t', alistGet (A2A.process_task c4ExecFail c1St "t1" "import").1.tasks "t1"
        = some t' ∧ t'.status = A2A.TaskStatus.failed := by
  have h := (c4_process_task_absorbs_failure c4ExecFail c1St "t1" "import").1
    c1Task "boom" (by decide) (by decide) rfl
  obtain ⟨hok, t', h1, h2, h3⟩ := h
  exact ⟨hok, t', h1, h2⟩

theorem c2_witness :
    c2Task.attempts + 1 ≤ 3 ∧
    ({ c2Task with
        attempts := c2Task.attempts + 1
        priority := A2A.i32_saturating_sub c2Task.priority 10 } : A2A.QueueTask)
      ∈ (A2A.QueueService.requeue c2St0 "a2a:queue:import" c2Task).tasksIn
          "a2a:queue:import" :=
  ⟨by decide, ((c2_requeue.1 c2St0 "a2a:queue:import" c2Task).2 (by decide)).2⟩

/-! ## `crates/ai-ops-core/src/knowledge`: knowledge graph -/

namespace Knowledge

/-- `knowledge/mod.rs` `Problem` (the opaque `context` map and `severity`
enum are inert for the modelled operations and omitted; timestamps are
`Nat`). -/
structure Problem where
  fingerprint : String
  category : String
  description : String
  error_patterns : List String
  occurrence_count : Nat
  first_seen : Nat
  last_seen : Nat
deriving DecidableEq

/-- `knowledge/mod.rs` `Solution` (`actions`, `prerequisites`, `side_effects`
and `avg_resolution_time` are inert for the modelled operations and
omitted; `success_rate: f64` is a rational). -/
structure Solution where
  description : String
  success_rate : ℚ
  attempt_count : Nat
  success_count : Nat
deriving DecidableEq

/-- The typed `data` JSON column of a `knowledge_nodes` row. -/
inductive KNodeData
  | problem (p : Problem)
  | solution (s : Solution)
deriving DecidableEq

/-- A `knowledge_nodes` row: id, typed data, optional pgvector embedding. -/
structure KNode where
  id : Nat
  data : KNodeData
  embedding : Option (List ℚ)
deriving DecidableEq

/-- A `knowledge_edges` row. -/
structure KEdge where
  id : Nat
  from_node : Nat
  to_node : Nat
  relationship : String
  weight : ℚ
deriving DecidableEq

/-- The database state backing `KnowledgeGraph` (rows in insertion order;
`id` is the primary key). -/
structure KGState where
  nodes : List KNode
  edges : List KEdge
deriving DecidableEq

/-- `SELECT ... FROM knowledge_nodes WHERE id = $1`. -/
def getNode (st : KGState) (i : Nat) : Option KNode :=
  st.nodes.find? (fun n => n.id == i)

/-- `KnowledgeGraph::generate_fingerprint`: hashes `category` and
`error_patterns` with `std` `DefaultHasher`; the hasher itself lives in the
standard library, so it is passed as the abstract parameter `genFp`. -/
def generate_fingerprint (genFp : String → List String → String) (p : Problem) : String :=
  genFp p.category p.error_patterns

/-- Row predicate of `find_similar_problem`:
`node_type = 'problem' AND data->>'fingerprint' = fp`.  Note that this reads
the *stored* `fingerprint` field of the serialized problem. -/
def problemFingerprintMatches (n : KNode) (fp : String) : Bool :=
  match n.data with
  | KNodeData.problem p => p.fingerprint == fp
  | _ => false

/-- `KnowledgeGraph::find_similar_problem` (`LIMIT 1` without `ORDER BY`,
modelled as the first matching row in insertion order). -/
def find_similar_problem (st : KGState) (fp : String) : Option Nat :=
  (st.nodes.find? (fun n => problemFingerprintMatches n fp)).map (fun n => n.id)

/-- `KnowledgeGraph::increment_problem_occurrences`: the JSONB update adds
one to `occurrence_count` and sets `last_seen` on the row with the given id
(always a problem row, as only `find_similar_problem` produces the id). -/
def increment_problem_occurrences (st : KGState) (problem_id : Nat) (now : Nat) : KGState :=
  { st with nodes := st.nodes.map (fun n =>
      if n.id == problem_id then
        match n.data with
        | KNodeData.problem p =>
            { n with data := (KNodeData.problem
                { p with occurrence_count := p.occurrence_count + 1, last_seen := now }) }
        | _ => n
      else n) }

/-- `KnowledgeGraph::add_problem`.  The freshly generated `Uuid` and the
clock are the explicit parameters `newId` and `now`; `embed` is the external
`EmbeddingStore::generate_embedding`. -/
def add_problem (genFp : String → List String → String) (embed : String → List ℚ)
    (st : KGState) (p : Problem) (newId : Nat) (now : Nat) : Nat × KGState :=
  let fp := generate_fingerprint genFp p
  match find_similar_problem st fp with
  | some existing => (existing, increment_problem_occurrences st existing now)
  | none =>
      (newId,
        { st with nodes := st.nodes ++
            [{ id := newId, data := KNodeData.problem p,
               embedding := some (embed p.description) }] })

/-- `knowledge/graph.rs` `Relationship` as used by `add_edge`. -/
inductive Relationship
  | Solves
  | Uses
  | Requires
  | Causes
  | LeadsTo
  | RelatedTo
  | PartOf
  | DependsOn
  | Conflicts
  | Improves
  | Validates
  | Generates
  | Custom (s : String)
deriving DecidableEq

/-- The relationship-to-string match inside `KnowledgeGraph::add_edge`. -/
def relationshipStr : Relationship → String
  | Relationship.Solves => "solves"
  | Relationship.Uses => "requires"
  | Relationship.Requires => "requires"
  | Relationship.Causes => "causes"
  | Relationship.LeadsTo => "leads_to"
  | Relationship.RelatedTo => "similar_to"
  | Relationship.PartOf => "implements"
  | Relationship.DependsOn => "requires"
  | Relationship.Conflicts => "triggers"
  | Relationship.Improves => "evolves_into"
  | Relationship.Validates => "collaborates"
  | Relationship.Generates => "triggers"
  | Relationship.Custom _ => "collaborates"

/-- `KnowledgeGraph::add_edge`. -/
def add_edge (st : KGState) (edgeId from_node to_node : Nat) (rel : Relationship)
    (weight : ℚ) : Nat × KGState :=
  (edgeId,
    { st with edges := st.edges ++
        [{ id := edgeId, from_node := from_node, to_node := to_node,
           relationship := relationshipStr rel, weight := weight }] })

/-- `KnowledgeGraph::add_solution`: insert the solution row and a
`Solves`-edge of weight 1 towards the problem. -/
def add_solution (embed : String → List ℚ) (st : KGState) (s : Solution)
    (problem_id : Nat) (newId edgeId : Nat) : Nat × KGState :=
  let st1 : KGState :=
    { st with nodes := st.nodes ++
        [{ id := newId, data := KNodeData.solution s,
           embedding := some (embed s.description) }] }
  (newId, (add_edge st1 edgeId newId problem_id Relationship.Solves 1).2)

/-- The mutation sequence of `update_solution_outcome` on the deserialized
solution: `attempt_count += 1`, conditional `success_count += 1`, then
`success_rate = success_count / attempt_count`. -/
def updatedSolution (s : Solution) (success : Bool) : Solution :=
  let s1 : Solution :=
    { s with
        attempt_count := s.attempt_count + 1
        success_count := s.success_count + (if success then 1 else 0) }
  { s1 with success_rate := (s1.success_count : ℚ) / (s1.attempt_count : ℚ) }

/-- `KnowledgeGraph::update_solution_outcome`.  `fetch_one` fails when the
row is missing; deserializing a non-solution row as `Solution` fails. -/
def update_solution_outcome (st : KGState) (solution_id : Nat) (success : Bool) :
    Except String KGState :=
  match getNode st solution_id with
  | none => Except.error "no rows returned"
  | some n =>
      match n.data with
      | KNodeData.problem _ => Except.error "failed to deserialize Solution"
      | KNodeData.solution s =>
          Except.ok
            { st with nodes := st.nodes.map (fun m =>
                if m.id == solution_id
                then { m with data := KNodeData.solution (updatedSolution s success) }
                else m) }

/-- `knowledge/mod.rs` `SolutionCandidate`. -/
structure SolutionCandidate where
  solution : Solution
  confidence : ℚ
  similar_problem_id : Nat
deriving DecidableEq

/-- The rows of the nearest-problem query before `LIMIT`: each problem row
paired with its pgvector cosine distance `n.embedding <=> query` (the
operator is the abstract parameter `pgDist`; the `SELECT` reports
`1 - distance` as the similarity). -/
def problemRows (pgDist : List ℚ → List ℚ → ℚ) (st : KGState) (qEmb : List ℚ) :
    List (Nat × ℚ) :=
  st.nodes.filterMap (fun n =>
    match n.data, n.embedding with
    | KNodeData.problem _, some e => some (n.id, pgDist e qEmb)
    | _, _ => none)

/-- `ORDER BY n.embedding <=> $1 LIMIT 10`: ten nearest problems. -/
def nearestProblems (pgDist : List ℚ → List ℚ → ℚ) (st : KGState) (qEmb : List ℚ) :
    List (Nat × ℚ) :=
  (sortByCmp (fun a b => qCompare a.2 b.2) (problemRows pgDist st qEmb)).take 10

/-- The per-problem solutions query:
`SELECT n.id, n.data, e.weight FROM knowledge_nodes n JOIN knowledge_edges e
ON e.from_node = n.id WHERE e.to_node = pid AND e.relationship = 'solves'
ORDER BY e.weight DESC`. -/
def solvesRows (st : KGState) (pid : Nat) : List (KNode × ℚ) :=
  sortByCmp (fun a b => qCompare b.2 a.2)
    (st.edges.filterMap (fun e =>
      if e.to_node == pid && e.relationship == "solves" then
        match getNode st e.from_node with
        | some n => some (n, e.weight)
        | none => none
      else none))

/-- The inner loop of `find_solutions`: deserialize each joined row as a
`Solution` (failing like `serde_json::from_value` on a non-solution row) and
attach `confidence = similarity * weight`. -/
def candidatesFromRows (pid : Nat) (sim : ℚ) :
    List (KNode × ℚ) → Except String (List SolutionCandidate)
  | [] => Except.ok []
  | (n, w) :: rest =>
      match n.data with
      | KNodeData.problem _ => Except.error "failed to deserialize Solution"
      | KNodeData.solution s =>
          match candidatesFromRows pid sim rest with
          | Except.error e => Except.error e
          | Except.ok cs =>
              Except.ok
                ({ solution := s, confidence := sim * w, similar_problem_id := pid } :: cs)

/-- The outer loop of `find_solutions` over the nearest problems. -/
def gatherCandidates (st : KGState) :
    List (Nat × ℚ) → Except String (List SolutionCandidate)
  | [] => Except.ok []
  | pr :: rest =>
      match candidatesFromRows pr.1 (1 - pr.2) (solvesRows st pr.1) with
      | Except.error e => Except.error e
      | Except.ok cs =>
          match gatherCandidates st rest with
          | Except.error e => Except.error e
          | Except.ok later => Except.ok (cs ++ later)

/-- `KnowledgeGraph::find_solutions`. -/
def find_solutions (embed : String → List ℚ) (pgDist : List ℚ → List ℚ → ℚ)
    (st : KGState) (problem_description : String) :
    Except String (List SolutionCandidate) :=
  match gatherCandidates st (nearestProblems pgDist st (embed problem_description)) with
  | Except.error e => Except.error e
  | Except.ok cands =>
      Except.ok (sortByCmp (fun a b => qCompare b.confidence a.confidence) cands)

theorem find?_append_of_none {α : Type} (p : α → Bool) (l1 l2 : List α)
    (h : l1.find? p = none) : (l1 ++ l2).find? p = l2.find? p := by
  induction l1 with
  | nil => rfl
  | cons a l ih =>
      cases hpa : p a with
      | true => rw [List.find?_cons_of_pos _ hpa] at h; cases h
      | false =>
          rw [List.find?_cons_of_neg _ (by simp [hpa])] at h
          rw [List.cons_append, List.find?_cons_of_neg _ (by simp [hpa])]
          exact ih h

theorem find?_map_id_pres (f : KNode → KNode) (hf : ∀ n, (f n).id = n.id)
    (l : List KNode) (i : Nat) :
    (l.map f).find? (fun n => n.id == i) = (l.find? (fun n => n.id == i)).map f := by
  induction l with
  | nil => rfl
  | cons n l ih =>
      simp only [List.map_cons, List.find?]
      rw [hf n]
      cases h : (n.id == i) with
      | true => simp only [h]; rfl
      | false => simp only [h]; exact ih

theorem getNode_map_pres (st : KGState) (f : KNode → KNode)
    (hf : ∀ n, (f n).id = n.id) (i : Nat) :
    getNode { st with nodes := st.nodes.map f } i = (getNode st i).map f := by
  unfold getNode
  exact find?_map_id_pres f hf st.nodes i

end Knowledge

/-- Claim C6: `update_solution_outcome` increments `attempt_count`,
increments `success_count` exactly for a success, and leaves
`success_rate = success_count / max(attempt_count, 1)` on the stored
solution. -/
theorem c6_update_solution_outcome (st : Knowledge.KGState) (solution_id : Nat)
    (success : Bool) (n : Knowledge.KNode) (s : Knowledge.Solution)
    (hget : Knowledge.getNode st solution_id = some n)
    (hdata : n.data = Knowledge.KNodeData.solution s) :
    ∃ st', Knowledge.update_solution_outcome st solution_id success = Except.ok st' ∧
      ∃ s', Knowledge.getNode st' solution_id
          = some { n with data := Knowledge.KNodeData.solution s' } ∧
        s'.attempt_count = s.attempt_count + 1 ∧
        s'.success_count = s.success_count + (if success then 1 else 0) ∧
        s'.success_rate = (s'.success_count : ℚ) / ((max s'.attempt_count 1 : Nat) : ℚ) := by
  have hget' : st.nodes.find? (fun m => m.id == solution_id) = some n := hget
  have hpred0 := List.find?_some hget'
  have hpred : (n.id == solution_id) = true := hpred0
  unfold Knowledge.update_solution_outcome
  simp only [hget, hdata]
  refine ⟨_, rfl, Knowledge.updatedSolution s success, ?_, rfl, rfl, ?_⟩
  · have hmap := Knowledge.getNode_map_pres st
      (fun m => if m.id == solution_id
        then { m with data := (Knowledge.KNodeData.solution
          (Knowledge.updatedSolution s success)) }
        else m)
      (fun m => by by_cases h : (m.id == solution_id) = true <;> simp [h]) solution_id
    rw [hmap, hget]
    simp only [Option.map_some']
    rw [if_pos hpred]
  · simp only [Knowledge.updatedSolution]
    rw [Nat.max_eq_left (Nat.succ_le_succ (Nat.zero_le s.attempt_count))]

def c6Sol : Knowledge.Solution :=
  { description := "restart", success_rate := 0, attempt_count := 0, success_count := 0 }

def c6St : Knowledge.KGState :=
  { nodes := [{ id := 5, data := Knowledge.KNodeData.solution c6Sol, embedding := none }],
    edges := [] }

theorem c6_witness :
    ∃ st', Knowledge.update_solution_outcome c6St 5 true = Except.ok st' ∧
      ∃ s', Knowledge.getNode st' 5
          = some { id := 5, data := Knowledge.KNodeData.solution s', embedding := none } ∧
        s'.attempt_count = c6Sol.attempt_count + 1 ∧
        s'.success_count = c6Sol.success_count + (if true then 1 else 0) ∧
        s'.success_rate = (s'.success_count : ℚ) / ((max s'.attempt_count 1 : Nat) : ℚ) :=
  c6_update_solution_outcome c6St 5 true
    { id := 5, data := Knowledge.KNodeData.solution c6Sol, embedding := none }
    c6Sol (by decide) rfl

/-- Claim C5, amended: when the stored problem's `fingerprint` *field* equals
the fingerprint computed from its `(category, error_patterns)` — the field is
what `find_similar_problem` reads, while `add_problem` matches against the
computed hash — a second `add_problem` with the same `(category,
error_patterns)` finds the first node: it returns the first id, increments
the stored `occurrence_count`, refreshes `last_seen`, and inserts nothing;
a call whose computed fingerprint matches no stored row inserts a new node
carrying an embedding of the description. -/
theorem c5_add_problem_dedup (genFp : String → List String → String)
    (embed : String → List ℚ) (st : Knowledge.KGState)
    (p1 p2 : Knowledge.Problem) (id1 id2 now1 now2 : Nat)
    (hfresh : Knowledge.find_similar_problem st
        (Knowledge.generate_fingerprint genFp p1) = none)
    (hfp : p1.fingerprint = Knowledge.generate_fingerprint genFp p1)
    (hcat : p2.category = p1.category)
    (hep : p2.error_patterns = p1.error_patterns)
    (hid : ∀ n ∈ st.nodes, n.id ≠ id1) :
    (Knowledge.add_problem genFp embed st p1 id1 now1).1 = id1 ∧
    (Knowledge.add_problem genFp embed st p1 id1 now1).2.nodes.length
      = st.nodes.length + 1 ∧
    Knowledge.getNode (Knowledge.add_problem genFp embed st p1 id1 now1).2 id1
      = some { id := id1, data := Knowledge.KNodeData.problem p1,
               embedding := some (embed p1.description) } ∧
    (Knowledge.add_problem genFp embed
        (Knowledge.add_problem genFp embed st p1 id1 now1).2 p2 id2 now2).1 = id1 ∧
    (Knowledge.add_problem genFp embed
        (Knowledge.add_problem genFp embed st p1 id1 now1).2 p2 id2 now2).2.nodes.length
      = st.nodes.length + 1 ∧
    ∃ n, Knowledge.getNode (Knowledge.add_problem genFp embed
          (Knowledge.add_problem genFp embed st p1 id1 now1).2 p2 id2 now2).2 id1
        = some n ∧
      n.data = Knowledge.KNodeData.problem
        { p1 with occurrence_count := p1.occurrence_count + 1, last_seen := now2 } := by
  set node1 := ({ id := id1, data := Knowledge.KNodeData.problem p1, embedding := some (embed p1.description) } : Knowledge.KNode)
  set st1 := ({ st with nodes := st.nodes ++ [node1] } : Knowledge.KGState)
  have hfp2 : Knowledge.generate_fingerprint genFp p2
      = Knowledge.generate_fingerprint genFp p1 := by
    unfold Knowledge.generate_fingerprint
    rw [hcat, hep]
  have h1 : Knowledge.add_problem genFp embed st p1 id1 now1 = (id1, st1) := by
    unfold Knowledge.add_problem
    simp only [hfresh]
  have hidnone : st.nodes.find? (fun m => m.id == id1) = none := by
    apply List.find?_eq_none.mpr
    intro m hm
    simp [hid m hm]
  have hg1 : Knowledge.getNode st1 id1 = some node1 := by
    unfold Knowledge.getNode
    show (st.nodes ++ [node1]).find? (fun m => m.id == id1) = some node1
    rw [Knowledge.find?_append_of_none _ _ _ hidnone]
    simp [List.find?]
  have hsimnone : st.nodes.find? (fun m => Knowledge.problemFingerprintMatches m
      (Knowledge.generate_fingerprint genFp p1)) = none := by
    unfold Knowledge.find_similar_problem at hfresh
    cases hx : st.nodes.find? (fun m => Knowledge.problemFingerprintMatches m
        (Knowledge.generate_fingerprint genFp p1)) with
    | none => rfl
    | some m => rw [hx] at hfresh; cases hfresh
  have hmatch : Knowledge.problemFingerprintMatches node1
      (Knowledge.generate_fingerprint genFp p1) = true := by
    show (p1.fingerprint == Knowledge.generate_fingerprint genFp p1) = true
    rw [hfp]
    exact beq_self_eq_true _
  have hfind2 : Knowledge.find_similar_problem st1
      (Knowledge.generate_fingerprint genFp p2) = some id1 := by
    rw [hfp2]
    unfold Knowledge.find_similar_problem
    show ((st.nodes ++ [node1]).find? _).map _ = _
    rw [Knowledge.find?_append_of_none _ _ _ hsimnone]
    simp [List.find?, hmatch]
  have h2 : Knowledge.add_problem genFp embed st1 p2 id2 now2
      = (id1, Knowledge.increment_problem_occurrences st1 id1 now2) := by
    unfold Knowledge.add_problem
    simp only [hfind2]
  have hg2 : Knowledge.getNode (Knowledge.increment_problem_occurrences st1 id1 now2) id1
      = some { node1 with data := (Knowledge.KNodeData.problem
          { p1 with occurrence_count := p1.occurrence_count + 1, last_seen := now2 }) } := by
    unfold Knowledge.increment_problem_occurrences
    rw [Knowledge.getNode_map_pres st1 _
      (fun m => by
        by_cases h : (m.id == id1) = true
        · cases m.data <;> simp [h]
        · simp [h]) id1]
    rw [hg1]
    simp only [Option.map_some']
    rw [if_pos (beq_self_eq_true id1)]
  rw [h1]
  refine ⟨rfl, ?_, hg1, ?_, ?_, ?_⟩
  · show (st.nodes ++ [node1]).length = st.nodes.length + 1
    rw [List.length_append]
    rfl
  · rw [h2]
  · rw [h2]
    show (st1.nodes.map _).length = st.nodes.length + 1
    rw [List.length_map]
    show (st.nodes ++ [node1]).length = st.nodes.length + 1
    rw [List.length_append]
    rfl
  · rw [h2]
    exact ⟨_, hg2, rfl⟩

/-- Concrete stand-in for the `DefaultHasher`-based fingerprint: any function
of `(category, error_patterns)` exhibits the behaviour. -/
def c5Fp : String → List String → String :=
  fun c ps => String.intercalate "|" (c :: ps)

def c5Embed : String → List ℚ := fun _ => [1]

/-- A problem whose caller-supplied `fingerprint` field differs from the
computed fingerprint of its `(category, error_patterns)`. -/
def c5Problem : Knowledge.Problem :=
  { fingerprint := "", category := "db", description := "connection refused",
    error_patterns := ["ECONNREFUSED"], occurrence_count := 1,
    first_seen := 0, last_seen := 0 }

/-- Counterexample to claim C5 as stated: two `add_problem` calls with
identical `(category, error_patterns)` create two nodes, and the second call
returns the fresh id, because `find_similar_problem` compares the computed
hash against the *stored* `fingerprint` field, which `add_problem` never
sets. -/
theorem c5_counterexample :
    (Knowledge.add_problem c5Fp c5Embed
        (Knowledge.add_problem c5Fp c5Embed ⟨[], []⟩ c5Problem 1 0).2
        c5Problem 2 1).2.nodes.length = 2 ∧
    (Knowledge.add_problem c5Fp c5Embed
        (Knowledge.add_problem c5Fp c5Embed ⟨[], []⟩ c5Problem 1 0).2
        c5Problem 2 1).1 = 2 ∧ (2 : Nat) ≠ 1 := by
  refine ⟨?_, ?_, by decide⟩ <;> decide

def c5Good : Knowledge.Problem :=
  { fingerprint := "db|ECONNREFUSED", category := "db",
    description := "connection refused",
    error_patterns := ["ECONNREFUSED"], occurrence_count := 1,
    first_seen := 0, last_seen := 0 }

theorem c5_witness :
    ∃ n, Knowledge.getNode (Knowledge.add_problem c5Fp c5Embed
          (Knowledge.add_problem c5Fp c5Embed ⟨[], []⟩ c5Good 1 0).2 c5Good 2 7).2 1
        = some n ∧
      n.data = Knowledge.KNodeData.problem
        { c5Good with occurrence_count := c5Good.occurrence_count + 1, last_seen := 7 } :=
  (c5_add_problem_dedup c5Fp c5Embed ⟨[], []⟩ c5Good c5Good 1 2 0 7 rfl (by decide)
    rfl rfl (by simp)).2.2.2.2.2

theorem descCmp_total {α : Type} (k : α → ℚ) (x y : α)
    (h : qCompare (k y) (k x) = Ordering.gt) :
    qCompare (k x) (k y) ≠ Ordering.gt := by
  rw [qCompare_gt_iff] at h
  rw [Ne, qCompare_gt_iff]
  exact not_lt.mpr (le_of_lt h)

theorem descCmp_trans {α : Type} (k : α → ℚ) (x y z : α)
    (hxy : cmpLe (fun a b => qCompare (k b) (k a)) x y)
    (hyz : cmpLe (fun a b => qCompare (k b) (k a)) y z) :
    cmpLe (fun a b => qCompare (k b) (k a)) x z := by
  unfold cmpLe at hxy hyz ⊢
  rw [qCompare_not_gt_iff] at hxy hyz ⊢
  exact le_trans hyz hxy

namespace Knowledge

theorem candidatesFromRows_mem (pid : Nat) (sim : ℚ) (rows : List (KNode × ℚ))
    (cs : List SolutionCandidate) (h : candidatesFromRows pid sim rows = Except.ok cs) :
    ∀ c ∈ cs, c.similar_problem_id = pid ∧ ∃ row ∈ rows, c.confidence = sim * row.2 := by
  induction rows generalizing cs with
  | nil =>
      unfold candidatesFromRows at h
      injection h with h
      rw [← h]
      intro c hc
      exact absurd hc (List.not_mem_nil c)
  | cons row rest ih =>
      obtain ⟨n, w⟩ := row
      unfold candidatesFromRows at h
      cases hd : n.data with
      | problem p => rw [hd] at h; cases h
      | solution s =>
          rw [hd] at h
          cases hrec : candidatesFromRows pid sim rest with
          | error e => rw [hrec] at h; cases h
          | ok cs' =>
              rw [hrec] at h
              injection h with h
              rw [← h]
              intro c hc
              rcases List.mem_cons.mp hc with hc0 | hmem
              · rw [hc0]
                exact ⟨rfl, ⟨(n, w), List.mem_cons_self _ _, rfl⟩⟩
              · obtain ⟨hpid, row', hrow', hconf⟩ := ih cs' hrec c hmem
                exact ⟨hpid, row', List.mem_cons_of_mem _ hrow', hconf⟩

theorem gatherCandidates_mem (st : KGState) (probs : List (Nat × ℚ))
    (cs : List SolutionCandidate) (h : gatherCandidates st probs = Except.ok cs) :
    ∀ c ∈ cs, ∃ pr ∈ probs, c.similar_problem_id = pr.1 ∧
      ∃ row ∈ solvesRows st pr.1, c.confidence = (1 - pr.2) * row.2 := by
  induction probs generalizing cs with
  | nil =>
      unfold gatherCandidates at h
      injection h with h
      rw [← h]
      intro c hc
      exact absurd hc (List.not_mem_nil c)
  | cons pr rest ih =>
      unfold gatherCandidates at h
      cases h1 : candidatesFromRows pr.1 (1 - pr.2) (solvesRows st pr.1) with
      | error e => rw [h1] at h; cases h
      | ok cs1 =>
          rw [h1] at h
          cases h2 : gatherCandidates st rest with
          | error e => rw [h2] at h; cases h
          | ok cs2 =>
              rw [h2] at h
              injection h with h
              rw [← h]
              intro c hc
              rcases List.mem_append.mp hc with hmem | hmem
              · obtain ⟨hpid, row, hrow, hconf⟩ :=
                  candidatesFromRows_mem pr.1 (1 - pr.2) _ cs1 h1 c hmem
                exact ⟨pr, List.mem_cons_self _ _, hpid, row, hrow, hconf⟩
              · obtain ⟨pr', hpr', rest'⟩ := ih cs2 h2 c hmem
                exact ⟨pr', List.mem_cons_of_mem _ hpr', rest'⟩

theorem solvesRows_mem (st : KGState) (pid : Nat) (row : KNode × ℚ)
    (h : row ∈ solvesRows st pid) :
    ∃ e ∈ st.edges, e.to_node = pid ∧ e.relationship = "solves" ∧ row.2 = e.weight := by
  unfold solvesRows at h
  have h' := (sortByCmp_perm _ _).mem_iff.mp h
  rcases List.mem_filterMap.mp h' with ⟨e, he, hfe⟩
  by_cases hcond : (e.to_node == pid && e.relationship == "solves") = true
  · rw [if_pos hcond] at hfe
    rcases Bool.and_eq_true_iff.mp hcond with ⟨ht, hr⟩
    refine ⟨e, he, beq_iff_eq.mp ht, beq_iff_eq.mp hr, ?_⟩
    cases hg : getNode st e.from_node with
    | none => rw [hg] at hfe; cases hfe
    | some n =>
        rw [hg] at hfe
        injection hfe with hfe
        rw [← hfe]
  · rw [if_neg hcond] at hfe
    cases hfe

end Knowledge

def c7P1 : Knowledge.Problem :=
  { fingerprint := "f1", category := "c", description := "P1",
    error_patterns := [], occurrence_count := 1, first_seen := 0, last_seen := 0 }

def c7P2 : Knowledge.Problem :=
  { fingerprint := "f2", category := "c", description := "P2",
    error_patterns := [], occurrence_count := 1, first_seen := 0, last_seen := 0 }

def c7S1 : Knowledge.Solution :=
  { description := "S1", success_rate := 1, attempt_count := 1, success_count := 1 }

def c7S2 : Knowledge.Solution :=
  { description := "S2", success_rate := 0, attempt_count := 0, success_count := 0 }

def c7St : Knowledge.KGState :=
  { nodes := [
      { id := 1, data := Knowledge.KNodeData.problem c7P1, embedding := some [1, 0] },
      { id := 2, data := Knowledge.KNodeData.problem c7P2, embedding := some [0, 1] },
      { id := 3, data := Knowledge.KNodeData.solution c7S1, embedding := some [1] },
      { id := 4, data := Knowledge.KNodeData.solution c7S2, embedding := some [1] }],
    edges := [
      { id := 10, from_node := 3, to_node := 1, relationship := "solves", weight := 1 },
      { id := 11, from_node := 4, to_node := 2, relationship := "solves", weight := 1 }] }

/-- A concrete cosine-distance operator giving `sim(query, P1) = 0.9` and
`sim(query, P2) = 0.5`. -/
def c7Dist : List ℚ → List ℚ → ℚ :=
  fun e _ => if e == [1, 0] then 1 / 10 else if e == [0, 1] then 1 / 2 else 1

def c7Embed : String → List ℚ := fun _ => [1, 1]

/-- Claim C7: `find_solutions` ranks by `confidence = similarity × weight` in
descending order, drawing candidates from the ten nearest problems (sorted
by ascending pgvector distance, i.e. descending cosine similarity); on the
spec's two-problem example it returns `[S1, S2]` with scores `[0.9, 0.5]`. -/
theorem c7_find_solutions (embed : String → List ℚ) (pgDist : List ℚ → List ℚ → ℚ)
    (st : Knowledge.KGState) (desc : String) (l : List Knowledge.SolutionCandidate)
    (hok : Knowledge.find_solutions embed pgDist st desc = Except.ok l) :
    (List.Pairwise (fun a b => b.confidence ≤ a.confidence) l ∧
     (∀ c ∈ l, ∃ pr ∈ Knowledge.nearestProblems pgDist st (embed desc),
        c.similar_problem_id = pr.1 ∧
        ∃ e ∈ st.edges, e.to_node = pr.1 ∧ e.relationship = "solves" ∧
          c.confidence = (1 - pr.2) * e.weight) ∧
     (Knowledge.nearestProblems pgDist st (embed desc)).length ≤ 10 ∧
     List.Pairwise (fun a b => a.2 ≤ b.2)
       (sortByCmp (fun a b => qCompare a.2 b.2)
         (Knowledge.problemRows pgDist st (embed desc))) ∧
     List.Perm
       (sortByCmp (fun a b => qCompare a.2 b.2)
         (Knowledge.problemRows pgDist st (embed desc)))
       (Knowledge.problemRows pgDist st (embed desc))) ∧
    Knowledge.find_solutions c7Embed c7Dist c7St "query" =
      Except.ok [{ solution := c7S1, confidence := 9 / 10, similar_problem_id := 1 },
        { solution := c7S2, confidence := 1 / 2, similar_problem_id := 2 }] := by
  constructor
  · unfold Knowledge.find_solutions at hok
    cases hg : Knowledge.gatherCandidates st
        (Knowledge.nearestProblems pgDist st (embed desc)) with
    | error e => rw [hg] at hok; cases hok
    | ok cands =>
        rw [hg] at hok
        injection hok with hok
        refine ⟨?_, ?_, ?_, ?_, ?_⟩
        · rw [← hok]
          have hp := sortByCmp_pairwise
            (fun a b => qCompare b.confidence a.confidence)
            (fun x y => descCmp_total (fun c => c.confidence) x y)
            (fun x y z => descCmp_trans (fun c => c.confidence) x y z) cands
          refine hp.imp ?_
          intro a b hab
          exact (qCompare_not_gt_iff _ _).mp hab
        · intro c hc
          rw [← hok] at hc
          have hc' := (sortByCmp_perm _ _).mem_iff.mp hc
          obtain ⟨pr, hpr, hpid, row, hrow, hconf⟩ :=
            Knowledge.gatherCandidates_mem st _ cands hg c hc'
          obtain ⟨e, he, hto, hrel, hw⟩ := Knowledge.solvesRows_mem st pr.1 row hrow
          exact ⟨pr, hpr, hpid, e, he, hto, hrel, by rw [hconf, hw]⟩
        · exact List.length_take_le 10 _
        · have hp := sortByCmp_pairwise (fun a b => qCompare a.2 b.2)
            (fun x y h => by
              rw [qCompare_gt_iff] at h
              rw [Ne, qCompare_gt_iff]
              exact not_lt.mpr (le_of_lt h))
            (fun x y z hxy hyz => by
              unfold cmpLe at hxy hyz ⊢
              rw [qCompare_not_gt_iff] at hxy hyz ⊢
              exact le_trans hxy hyz)
            (Knowledge.problemRows pgDist st (embed desc))
          refine hp.imp ?_
          intro a b hab
          exact (qCompare_not_gt_iff _ _).mp hab
        · exact sortByCmp_perm _ _
  · norm_num [Knowledge.find_solutions, Knowledge.nearestProblems, Knowledge.problemRows,
      Knowledge.gatherCandidates, Knowledge.candidatesFromRows, Knowledge.solvesRows,
      Knowledge.getNode, sortByCmp, insertCmp, qCompare, c7St, c7Embed, c7Dist,
      c7P1, c7P2, c7S1, c7S2, List.find?, List.filterMap]
    decide

theorem c7_witness :
    List.Pairwise (fun a b => b.confidence ≤ a.confidence)
      [({ solution := c7S1, confidence := 9 / 10, similar_problem_id := 1 }
          : Knowledge.SolutionCandidate),
        { solution := c7S2, confidence := 1 / 2, similar_problem_id := 2 }] :=
  ((c7_find_solutions c7Embed c7Dist c7St "query"
    [{ solution := c7S1, confidence := 9 / 10, similar_problem_id := 1 },
      { solution := c7S2, confidence := 1 / 2, similar_problem_id := 2 }]
    (by
      norm_num [Knowledge.find_solutions, Knowledge.nearestProblems,
        Knowledge.problemRows, Knowledge.gatherCandidates,
        Knowledge.candidatesFromRows, Knowledge.solvesRows, Knowledge.getNode,
        sortByCmp, insertCmp, qCompare, c7St, c7Embed, c7Dist,
        c7P1, c7P2, c7S1, c7S2, List.find?, List.filterMap]
      decide)).1).1

/-! ## `crates/ai-ops-core/src/events/store.rs`: in-memory event store -/

namespace Events

/-- `events/mod.rs` `Event`.  `EventType` (a plain enum) is modelled by its
name string, `AgentId` (a `Uuid`) by a `Nat`; `timestamp`, `payload` and
`metadata` are inert for the store's index bookkeeping and omitted. -/
structure Event where
  id : Nat
  event_type : String
  source : Nat
  correlation_id : Option Nat
  causation_id : Option Nat
deriving DecidableEq

/-- `store.rs` `EventIndexes`. -/
structure EventIndexes where
  by_type : List (String × List Nat)
  by_source : List (Nat × List Nat)
  by_correlation : List (Nat × List Nat)
  by_causation : List (Nat × List Nat)
deriving DecidableEq

/-- `store.rs` `EventStore` (the `VecDeque` ring with its head first). -/
structure EventStore where
  events : List Event
  max_events : Nat
  indexes : EventIndexes
deriving DecidableEq

/-- `EventStore::with_capacity`. -/
def with_capacity (n : Nat) : EventStore :=
  { events := [], max_events := n, indexes := ⟨[], [], [], []⟩ }

/-- `EventStore::new`. -/
def EventStore.new : EventStore := with_capacity 10000

/-- Reading an index entry; a missing key reads as the empty list. -/
def idxFetch {κ : Type} [DecidableEq κ] (idx : List (κ × List Nat)) (k : κ) :
    List Nat :=
  (alistGet idx k).getD []

/-- `index.entry(k).or_insert_with(Vec::new).push(v)`. -/
def idxPush {κ : Type} [DecidableEq κ] (idx : List (κ × List Nat)) (k : κ) (v : Nat) :
    List (κ × List Nat) :=
  alistSet idx k (idxFetch idx k ++ [v])

/-- `if let Some(ids) = index.get_mut(k) { ids.retain(|id| *id != v) }`. -/
def idxRemove {κ : Type} [DecidableEq κ] (idx : List (κ × List Nat)) (k : κ) (v : Nat) :
    List (κ × List Nat) :=
  alistUpdate idx k (fun ids => ids.filter (fun i => i != v))

/-- `if let Some(k) = o { push }` — the conditional pushes for the
correlation and causation ids. -/
def optIdxPush {κ : Type} [DecidableEq κ] (idx : List (κ × List Nat)) (o : Option κ)
    (v : Nat) : List (κ × List Nat) :=
  match o with
  | some k => idxPush idx k v
  | none => idx

/-- `if let Some(k) = o { retain }` — the conditional removals. -/
def optIdxRemove {κ : Type} [DecidableEq κ] (idx : List (κ × List Nat)) (o : Option κ)
    (v : Nat) : List (κ × List Nat) :=
  match o with
  | some k => idxRemove idx k v
  | none => idx

/-- The four index updates performed by `EventStore::store`. -/
def pushedIndexes (idx : EventIndexes) (e : Event) : EventIndexes :=
  { by_type := idxPush idx.by_type e.event_type e.id
    by_source := idxPush idx.by_source e.source e.id
    by_correlation := optIdxPush idx.by_correlation e.correlation_id e.id
    by_causation := optIdxPush idx.by_causation e.causation_id e.id }

/-- `EventStore::remove_from_indexes`. -/
def remove_from_indexes (idx : EventIndexes) (e : Event) : EventIndexes :=
  { by_type := idxRemove idx.by_type e.event_type e.id
    by_source := idxRemove idx.by_source e.source e.id
    by_correlation := optIdxRemove idx.by_correlation e.correlation_id e.id
    by_causation := optIdxRemove idx.by_causation e.causation_id e.id }

/-- `EventStore::store`: push to the ring, index, then evict the oldest event
(removing it from all four indices) when over capacity. -/
def EventStore.store (st : EventStore) (e : Event) : EventStore :=
  let events := st.events ++ [e]
  let idx := pushedIndexes st.indexes e
  if st.max_events < events.length then
    match events with
    | [] => { st with events := events, indexes := idx }
    | old :: rest => { st with events := rest, indexes := remove_from_indexes idx old }
  else { st with events := events, indexes := idx }

/-- The fields of `EventStore::get_stats` that do not involve timestamps. -/
structure EventStats where
  total_events : Nat
  event_types : Nat
  active_sources : Nat
deriving DecidableEq

/-- `EventStore::get_stats` (timestamp fields omitted). -/
def EventStore.get_stats (st : EventStore) : EventStats :=
  { total_events := st.events.length
    event_types := st.indexes.by_type.length
    active_sources := st.indexes.by_source.length }

/-- The ids of the ring events whose key projection `f` yields `k`, in ring
order — the intended contents of an index entry. -/
def idsMatching {κ : Type} [DecidableEq κ] (events : List Event)
    (f : Event → Option κ) (k : κ) : List Nat :=
  (events.filter (fun e => decide (f e = some k))).map (fun e => e.id)

/-- Store well-formedness: each index entry holds exactly the ids of the ring
events carrying that key, ids are distinct, and the ring is within
capacity. -/
def Inv (st : EventStore) : Prop :=
  (∀ k, idxFetch st.indexes.by_type k
      = idsMatching st.events (fun e => some e.event_type) k) ∧
  (∀ k, idxFetch st.indexes.by_source k
      = idsMatching st.events (fun e => some e.source) k) ∧
  (∀ k, idxFetch st.indexes.by_correlation k
      = idsMatching st.events (fun e => e.correlation_id) k) ∧
  (∀ k, idxFetch st.indexes.by_causation k
      = idsMatching st.events (fun e => e.causation_id) k) ∧
  (st.events.map (fun e => e.id)).Nodup ∧
  st.events.length ≤ st.max_events

section IndexLemmas

variable {κ : Type} [DecidableEq κ]

theorem idxFetch_push (idx : List (κ × List Nat)) (k : κ) (v : Nat) (k' : κ) :
    idxFetch (idxPush idx k v) k' =
      if k = k' then idxFetch idx k' ++ [v] else idxFetch idx k' := by
  unfold idxPush idxFetch
  by_cases h : k = k'
  · subst h
    rw [alistGet_set_self]
    simp
  · rw [alistGet_set_ne _ _ _ _ h]
    simp [h]

theorem idxFetch_remove (idx : List (κ × List Nat)) (k : κ) (v : Nat) (k' : κ) :
    idxFetch (idxRemove idx k v) k' =
      if k = k' then (idxFetch idx k').filter (fun i => i != v)
      else idxFetch idx k' := by
  unfold idxRemove idxFetch
  by_cases h : k = k'
  · subst h
    rw [alistGet_update_self]
    cases alistGet idx k <;> simp
  · rw [alistGet_update_ne _ _ _ _ h]
    simp [h]

theorem idsMatching_append (events : List Event) (e : Event)
    (f : Event → Option κ) (k : κ) :
    idsMatching (events ++ [e]) f k =
      idsMatching events f k ++ (if f e = some k then [e.id] else []) := by
  unfold idsMatching
  rw [List.filter_append, List.map_append]
  by_cases h : f e = some k <;> simp [h]

theorem idsMatching_cons (e : Event) (events : List Event)
    (f : Event → Option κ) (k : κ) :
    idsMatching (e :: events) f k =
      (if f e = some k then [e.id] else []) ++ idsMatching events f k := by
  unfold idsMatching
  rw [List.filter_cons]
  by_cases h : f e = some k <;> simp [h]

theorem idsMatching_subset (events : List Event) (f : Event → Option κ) (k : κ)
    (x : Nat) (h : x ∈ idsMatching events f k) :
    x ∈ events.map (fun e => e.id) := by
  unfold idsMatching at h
  rcases List.mem_map.mp h with ⟨e, he, he2⟩
  exact List.mem_map.mpr ⟨e, (List.mem_filter.mp he).1, he2⟩

theorem optPush_pres (f : Event → Option κ) (idx : List (κ × List Nat))
    (events : List Event) (e : Event)
    (h : ∀ k, idxFetch idx k = idsMatching events f k) (k : κ) :
    idxFetch (optIdxPush idx (f e) e.id) k = idsMatching (events ++ [e]) f k := by
  rw [idsMatching_append]
  cases hf : f e with
  | none =>
      simp only [optIdxPush]
      rw [h k]
      simp
  | some k0 =>
      simp only [optIdxPush, idxFetch_push]
      by_cases hk : k0 = k
      · rw [if_pos hk, h k, if_pos (by rw [hk])]
      · rw [if_neg hk, h k, if_neg (by simpa using hk)]
        simp

theorem optRemove_pres (f : Event → Option κ) (idx : List (κ × List Nat))
    (old : Event) (rest : List Event)
    (h : ∀ k, idxFetch idx k = idsMatching (old :: rest) f k)
    (hfresh : old.id ∉ rest.map (fun e => e.id)) (k : κ) :
    idxFetch (optIdxRemove idx (f old) old.id) k = idsMatching rest f k := by
  have hrestfilter : ∀ k', (idsMatching rest f k').filter (fun i => i != old.id)
      = idsMatching rest f k' := by
    intro k'
    apply List.filter_eq_self.mpr
    intro a ha
    have hmem := idsMatching_subset rest f k' a ha
    simp only [bne_iff_ne, ne_eq]
    intro heq
    rw [heq] at hmem
    exact hfresh hmem
  cases hf : f old with
  | none =>
      simp only [optIdxRemove]
      rw [h k, idsMatching_cons, hf]
      simp
  | some k0 =>
      simp only [optIdxRemove, idxFetch_remove]
      by_cases hk : k0 = k
      · rw [if_pos hk, h k, idsMatching_cons, hf, if_pos (by rw [hk]),
          List.filter_append, hrestfilter k]
        simp
      · rw [if_neg hk, h k, idsMatching_cons, hf, if_neg (by simpa using hk)]
        simp

end IndexLemmas

theorem store_inv (st : EventStore) (e : Event) (hInv : Inv st)
    (hfresh : e.id ∉ st.events.map (fun ev => ev.id)) :
    Inv (st.store e) ∧
    (st.events.length < st.max_events → (st.store e).events = st.events ++ [e]) ∧
    (st.events.length = st.max_events → 0 < st.max_events →
      (st.store e).events = st.events.tail ++ [e]) := by
  obtain ⟨hT, hS, hC, hK, hN, hL⟩ := hInv
  have hT4 : ∀ k, idxFetch (pushedIndexes st.indexes e).by_type k
      = idsMatching (st.events ++ [e]) (fun ev => some ev.event_type) k :=
    optPush_pres (fun ev => some ev.event_type) st.indexes.by_type st.events e hT
  have hS4 : ∀ k, idxFetch (pushedIndexes st.indexes e).by_source k
      = idsMatching (st.events ++ [e]) (fun ev => some ev.source) k :=
    optPush_pres (fun ev => some ev.source) st.indexes.by_source st.events e hS
  have hC4 : ∀ k, idxFetch (pushedIndexes st.indexes e).by_correlation k
      = idsMatching (st.events ++ [e]) (fun ev => ev.correlation_id) k :=
    optPush_pres (fun ev => ev.correlation_id) st.indexes.by_correlation st.events e hC
  have hK4 : ∀ k, idxFetch (pushedIndexes st.indexes e).by_causation k
      = idsMatching (st.events ++ [e]) (fun ev => ev.causation_id) k :=
    optPush_pres (fun ev => ev.causation_id) st.indexes.by_causation st.events e hK
  have hN4 : ((st.events ++ [e]).map (fun ev => ev.id)).Nodup := by
    rw [List.map_append]
    simp only [List.nodup_append, List.map_cons, List.map_nil]
    exact ⟨hN, List.nodup_singleton _, by
      intro a ha hb
      simp only [List.mem_singleton] at hb
      rw [hb] at ha
      exact hfresh ha⟩
  by_cases hover : st.max_events < (st.events ++ [e]).length
  · have hstore : ∃ old rest, st.events ++ [e] = old :: rest ∧
        st.store e = { st with events := rest, indexes := remove_from_indexes (pushedIndexes st.indexes e) old } ∧
        (st.events = [] ∨ rest = st.events.tail ++ [e]) ∧
        old.id ∉ rest.map (fun ev => ev.id) := by
      cases hev : st.events with
      | nil =>
          refine ⟨e, [], rfl, ?_, Or.inl rfl, by simp⟩
          unfold EventStore.store
          rw [hev] at hover ⊢
          simp only [List.nil_append] at hover ⊢
          rw [if_pos hover]
      | cons h0 t =>
          refine ⟨h0, t ++ [e], rfl, ?_, Or.inr rfl, ?_⟩
          · unfold EventStore.store
            rw [hev] at hover ⊢
            simp only [List.cons_append] at hover ⊢
            rw [if_pos hover]
          · rw [List.map_append]
            simp only [List.mem_append, List.map_cons, List.map_nil,
              List.mem_singleton]
            rintro (hmem | hmem)
            · rw [hev] at hN
              simp only [List.map_cons, List.nodup_cons] at hN
              exact hN.1 hmem
            · rw [hev] at hfresh
              simp only [List.map_cons, List.mem_cons] at hfresh
              exact hfresh (Or.inl hmem.symm)
    obtain ⟨old, rest, hsplit, hstoreEq, hrest, holdfresh⟩ := hstore
    have hTr := fun k => optRemove_pres (fun ev => some ev.event_type)
      (pushedIndexes st.indexes e).by_type old rest
      (by rw [← hsplit]; exact hT4) holdfresh k
    have hSr := fun k => optRemove_pres (fun ev => some ev.source)
      (pushedIndexes st.indexes e).by_source old rest
      (by rw [← hsplit]; exact hS4) holdfresh k
    have hCr := fun k => optRemove_pres (fun ev => ev.correlation_id)
      (pushedIndexes st.indexes e).by_correlation old rest
      (by rw [← hsplit]; exact hC4) holdfresh k
    have hKr := fun k => optRemove_pres (fun ev => ev.causation_id)
      (pushedIndexes st.indexes e).by_causation old rest
      (by rw [← hsplit]; exact hK4) holdfresh k
    have hNr : (rest.map (fun ev => ev.id)).Nodup := by
      have := hN4
      rw [hsplit] at this
      simp only [List.map_cons, List.nodup_cons] at this
      exact this.2
    have hLr : rest.length ≤ st.max_events := by
      have hlen : st.events.length + 1 = rest.length + 1 := by
        simpa using congrArg List.length hsplit
      omega
    refine ⟨?_, ?_, ?_⟩
    · rw [hstoreEq]
      exact ⟨hTr, hSr, hCr, hKr, hNr, hLr⟩
    · intro hlt
      exfalso
      rw [List.length_append, List.length_singleton] at hover
      omega
    · intro hmax hpos
      rcases hrest with hnil | hr
      · exfalso
        rw [hnil] at hmax
        simp only [List.length_nil] at hmax
        omega
      · rw [hstoreEq]
        exact hr
  · have hstore : st.store e = { st with events := st.events ++ [e], indexes := pushedIndexes st.indexes e } := by
      unfold EventStore.store
      rw [if_neg hover]
    refine ⟨⟨?_, ?_, ?_, ?_, ?_, ?_⟩, ?_, ?_⟩
    · rw [hstore]; exact hT4
    · rw [hstore]; exact hS4
    · rw [hstore]; exact hC4
    · rw [hstore]; exact hK4
    · rw [hstore]; exact hN4
    · rw [hstore]
      show (st.events ++ [e]).length ≤ st.max_events
      rw [List.length_append] at hover ⊢
      omega
    · intro _
      rw [hstore]
    · intro heq h0
      exfalso
      rw [List.length_append, List.length_singleton] at hover
      omega

theorem inv_with_capacity (n : Nat) : Inv (with_capacity n) := by
  refine ⟨?_, ?_, ?_, ?_, ?_, ?_⟩ <;>
    simp [with_capacity, idxFetch, alistGet, idsMatching]

theorem inv_membership (st : EventStore) (hInv : Inv st) :
    ∀ ev ∈ st.events,
      ev.id ∈ idxFetch st.indexes.by_type ev.event_type ∧
      ev.id ∈ idxFetch st.indexes.by_source ev.source ∧
      (∀ c, ev.id ∈ idxFetch st.indexes.by_correlation c ↔ ev.correlation_id = some c) ∧
      (∀ c, ev.id ∈ idxFetch st.indexes.by_causation c ↔ ev.causation_id = some c) := by
  obtain ⟨hT, hS, hC, hK, hN, hL⟩ := hInv
  intro ev hev
  have hmemOf : ∀ {κ : Type} [DecidableEq κ] (f : Event → Option κ) (k : κ),
      f ev = some k → ev.id ∈ idsMatching st.events f k := by
    intro κ _ f k hfk
    unfold idsMatching
    exact List.mem_map.mpr ⟨ev, List.mem_filter.mpr ⟨hev, by simp [hfk]⟩, rfl⟩
  have hidUnique : ∀ {κ : Type} [DecidableEq κ] (f : Event → Option κ) (k : κ),
      ev.id ∈ idsMatching st.events f k → f ev = some k := by
    intro κ _ f k hmem
    unfold idsMatching at hmem
    rcases List.mem_map.mp hmem with ⟨ev', hev', hid⟩
    rcases List.mem_filter.mp hev' with ⟨hev'mem, hfk⟩
    have hsame : ev' = ev := List.inj_on_of_nodup_map hN hev'mem hev hid
    rw [← hsame]
    simpa using hfk
  refine ⟨?_, ?_, fun c => ⟨?_, ?_⟩, fun c => ⟨?_, ?_⟩⟩
  · rw [hT]
    exact hmemOf _ _ rfl
  · rw [hS]
    exact hmemOf _ _ rfl
  · intro hmem
    rw [hC c] at hmem
    exact hidUnique _ _ hmem
  · intro hc
    rw [hC c]
    exact hmemOf _ _ hc
  · intro hmem
    rw [hK c] at hmem
    exact hidUnique _ _ hmem
  · intro hc
    rw [hK c]
    exact hmemOf _ _ hc

theorem inv_not_mem (st : EventStore) (hInv : Inv st) (x : Nat)
    (hx : x ∉ st.events.map (fun e => e.id)) :
    (∀ k, x ∉ idxFetch st.indexes.by_type k) ∧
    (∀ k, x ∉ idxFetch st.indexes.by_source k) ∧
    (∀ k, x ∉ idxFetch st.indexes.by_correlation k) ∧
    (∀ k, x ∉ idxFetch st.indexes.by_causation k) := by
  obtain ⟨hT, hS, hC, hK, _, _⟩ := hInv
  refine ⟨fun k hmem => hx ?_, fun k hmem => hx ?_, fun k hmem => hx ?_,
    fun k hmem => hx ?_⟩
  · exact idsMatching_subset _ _ _ _ (by rwa [hT] at hmem)
  · exact idsMatching_subset _ _ _ _ (by rwa [hS] at hmem)
  · exact idsMatching_subset _ _ _ _ (by rwa [hC] at hmem)
  · exact idsMatching_subset _ _ _ _ (by rwa [hK] at hmem)

end Events

def c8Ev : Events.Event :=
  { id := 1, event_type := "ServiceStarted", source := 2,
    correlation_id := none, causation_id := none }

/-- Counterexample to claim C8 as stated: storing the same event twice in a
capacity-1 store evicts the first copy and `retain` strips its id from the
indices, leaving the surviving ring copy unindexed. -/
theorem c8_counterexample :
    c8Ev ∈ (((Events.with_capacity 1).store c8Ev).store c8Ev).events ∧
    Events.idxFetch (((Events.with_capacity 1).store c8Ev).store c8Ev).indexes.by_type
      c8Ev.event_type = [] := by
  constructor
  · decide
  · decide

/-- Claim C8, amended: provided stored events carry pairwise-distinct ids
(as `Uuid::new_v4` generation provides), the store invariant holds: every
ring event's id is indexed under its type and source, and under a
correlation/causation key exactly when the event carries that id;
`total_events` equals the ring length; an id absent from the ring is absent
from all four indices (so an evicted event appears in none); `store` is
FIFO — under capacity it appends, and at capacity it drops the oldest
(head) event. -/
theorem c8_event_store :
    (∀ n, Events.Inv (Events.with_capacity n)) ∧
    (∀ st : Events.EventStore, Events.Inv st →
      (∀ ev ∈ st.events,
        ev.id ∈ Events.idxFetch st.indexes.by_type ev.event_type ∧
        ev.id ∈ Events.idxFetch st.indexes.by_source ev.source ∧
        (∀ c, ev.id ∈ Events.idxFetch st.indexes.by_correlation c ↔
          ev.correlation_id = some c) ∧
        (∀ c, ev.id ∈ Events.idxFetch st.indexes.by_causation c ↔
          ev.causation_id = some c)) ∧
      st.get_stats.total_events = st.events.length ∧
      (∀ x, x ∉ st.events.map (fun ev => ev.id) →
        (∀ k, x ∉ Events.idxFetch st.indexes.by_type k) ∧
        (∀ k, x ∉ Events.idxFetch st.indexes.by_source k) ∧
        (∀ k, x ∉ Events.idxFetch st.indexes.by_correlation k) ∧
        (∀ k, x ∉ Events.idxFetch st.indexes.by_causation k)) ∧
      (∀ e, e.id ∉ st.events.map (fun ev => ev.id) →
        Events.Inv (st.store e) ∧
        (st.events.length < st.max_events → (st.store e).events = st.events ++ [e]) ∧
        (st.events.length = st.max_events → 0 < st.max_events →
          (st.store e).events = st.events.tail ++ [e]))) := by
  refine ⟨Events.inv_with_capacity, ?_⟩
  intro st hInv
  exact ⟨Events.inv_membership st hInv, rfl,
    fun x hx => Events.inv_not_mem st hInv x hx,
    fun e he => Events.store_inv st e hInv he⟩

theorem c8_witness :
    Events.Inv ((Events.with_capacity 2).store c8Ev) ∧
    ((Events.with_capacity 2).store c8Ev).events = [c8Ev] := by
  have h := (c8_event_store.2 (Events.with_capacity 2) (c8_event_store.1 2)).2.2.2
    c8Ev (by decide)
  exact ⟨h.1, h.2.1 (by decide)⟩

/-! ## `crates/ai-ops-core/src/registry`: service registry -/

namespace Registry

/-- `registry/mod.rs` `HealthStatus`. -/
inductive HealthStatus
  | Healthy
  | Degraded
  | Unhealthy
deriving DecidableEq

/-- `registry/mod.rs` `ServiceHealth` (`last_heartbeat` omitted as inert;
`f64` metric values are rationals). -/
structure ServiceHealth where
  status : HealthStatus
  metrics : List (String × ℚ)
deriving DecidableEq

/-- `registry/mod.rs` `ServiceDefinition`.  `Capability` (a plain enum) is
modelled by its name string; name/type/endpoint fields are inert for the
modelled operations and omitted; `id` (a `Uuid`) is a `Nat`. -/
structure ServiceDefinition where
  id : Nat
  capabilities : List String
deriving DecidableEq

/-- `registry/mod.rs` `ServiceInfo`. -/
structure ServiceInfo where
  definition : ServiceDefinition
  health : ServiceHealth
deriving DecidableEq

/-- `ServiceRegistry` state (the knowledge-graph mirror is inert for the
modelled operations and omitted). -/
structure RegistryState where
  services : List (Nat × ServiceDefinition)
  capabilities_index : List (String × List Nat)
  health_tracker : List (Nat × ServiceHealth)
deriving DecidableEq

/-- `ServiceRegistry::register`. -/
def register (st : RegistryState) (d : ServiceDefinition) : RegistryState :=
  { services := alistSet st.services d.id d
    capabilities_index :=
      d.capabilities.foldl (fun idx c => Events.idxPush idx c d.id) st.capabilities_index
    health_tracker := alistSet st.health_tracker d.id
      { status := HealthStatus.Healthy, metrics := [] } }

/-- `registry/mod.rs` `HealthUpdate`. -/
structure HealthUpdate where
  status : HealthStatus
  metrics : List (String × ℚ)
deriving DecidableEq

/-- `ServiceRegistry::update_health`. -/
def update_health (st : RegistryState) (service_id : Nat) (hu : HealthUpdate) :
    RegistryState × Except String Unit :=
  match alistGet st.health_tracker service_id with
  | some _ =>
      ({ st with health_tracker := alistUpdate st.health_tracker service_id (fun h =>
          { status := hu.status
            metrics := hu.metrics.foldl (fun m kv => alistSet m kv.1 kv.2) h.metrics }) },
        Except.ok ())
  | none => (st, Except.error "Service not found")

/-- `health.metrics.get("load").unwrap_or(&0.0)`. -/
def loadOf (h : ServiceHealth) : ℚ := (alistGet h.metrics "load").getD 0

/-- The comparator closure passed to `results.sort_by` in
`find_by_capability`.  Note that two non-healthy services always compare
`Equal`, whatever their statuses. -/
def cmpService (a b : ServiceInfo) : Ordering :=
  match a.health.status, b.health.status with
  | HealthStatus.Healthy, HealthStatus.Healthy =>
      qCompare (loadOf a.health) (loadOf b.health)
  | HealthStatus.Healthy, _ => Ordering.lt
  | _, HealthStatus.Healthy => Ordering.gt
  | _, _ => Ordering.eq

/-- `ServiceRegistry::find_by_capability` (infallible; the `Result` wrapper
carries no error case). -/
def find_by_capability (st : RegistryState) (c : String) : List ServiceInfo :=
  let service_ids := (alistGet st.capabilities_index c).getD []
  let results := service_ids.filterMap (fun i =>
    match alistGet st.services i, alistGet st.health_tracker i with
    | some d, some h => some { definition := d, health := h }
    | _, _ => none)
  sortByCmp cmpService results

/-- The non-strict order the comparator induces. -/
def svcLe (x y : ServiceInfo) : Prop :=
  match x.health.status, y.health.status with
  | HealthStatus.Healthy, HealthStatus.Healthy => loadOf x.health ≤ loadOf y.health
  | HealthStatus.Healthy, _ => True
  | _, HealthStatus.Healthy => False
  | _, _ => True

theorem cmpService_not_gt_iff (x y : ServiceInfo) :
    cmpService x y ≠ Ordering.gt ↔ svcLe x y := by
  unfold cmpService svcLe
  cases hx : x.health.status <;> cases hy : y.health.status <;>
    simp [qCompare_not_gt_iff]

theorem svcLe_total (x y : ServiceInfo) : svcLe x y ∨ svcLe y x := by
  unfold svcLe
  cases hx : x.health.status <;> cases hy : y.health.status <;> simp
  exact le_total _ _

theorem cmpService_gt_asymm (x y : ServiceInfo) (h : cmpService x y = Ordering.gt) :
    cmpService y x ≠ Ordering.gt := by
  rw [cmpService_not_gt_iff]
  rcases svcLe_total x y with hxy | hyx
  · exact absurd h (by rw [← cmpService_not_gt_iff] at hxy; exact hxy)
  · exact hyx

theorem svcLe_trans (x y z : ServiceInfo) (hxy : svcLe x y) (hyz : svcLe y z) :
    svcLe x z := by
  unfold svcLe at hxy hyz ⊢
  cases hx : x.health.status <;> cases hy : y.health.status <;>
    cases hz : z.health.status <;> simp_all
  linarith

theorem svcLe_spec (a b : ServiceInfo) (h : svcLe a b) :
    (a.health.status ≠ HealthStatus.Healthy → b.health.status ≠ HealthStatus.Healthy) ∧
    (a.health.status = HealthStatus.Healthy → b.health.status = HealthStatus.Healthy →
      loadOf a.health ≤ loadOf b.health) := by
  unfold svcLe at h
  cases ha : a.health.status <;> cases hb : b.health.status <;> simp_all

theorem nonHealthy_cmp_eq (x y : ServiceInfo)
    (hx : (decide (x.health.status ≠ HealthStatus.Healthy)) = true)
    (hy : (decide (y.health.status ≠ HealthStatus.Healthy)) = true) :
    cmpService x y = Ordering.eq := by
  rw [decide_eq_true_eq] at hx hy
  unfold cmpService
  cases hxs : x.health.status <;> cases hys : y.health.status <;> simp_all

end Registry

/-- Claim C9, amended: `find_by_capability` returns the services offering
`c` with every healthy service before every non-healthy one and the healthy
ordered by non-decreasing `metrics["load"]` (absent load read as 0); but
degraded and unhealthy services compare `Equal` and keep their relative
registration order — degraded does *not* precede unhealthy. -/
theorem c9_find_by_capability (st : Registry.RegistryState) (c : String) :
    (∀ i ∈ (alistGet st.capabilities_index c).getD [],
      ∀ d h, alistGet st.services i = some d →
        alistGet st.health_tracker i = some h →
        ({ definition := d, health := h } : Registry.ServiceInfo)
          ∈ Registry.find_by_capability st c) ∧
    List.Pairwise (fun a b =>
        (a.health.status ≠ Registry.HealthStatus.Healthy →
          b.health.status ≠ Registry.HealthStatus.Healthy) ∧
        (a.health.status = Registry.HealthStatus.Healthy →
          b.health.status = Registry.HealthStatus.Healthy →
          Registry.loadOf a.health ≤ Registry.loadOf b.health))
      (Registry.find_by_capability st c) ∧
    (Registry.find_by_capability st c).filter
        (fun s => decide (s.health.status ≠ Registry.HealthStatus.Healthy)) =
      (((alistGet st.capabilities_index c).getD []).filterMap (fun i =>
        match alistGet st.services i, alistGet st.health_tracker i with
        | some d, some h => some { definition := d, health := h }
        | _, _ => none)).filter
        (fun s => decide (s.health.status ≠ Registry.HealthStatus.Healthy)) := by
  refine ⟨?_, ?_, ?_⟩
  · intro i hi d h hd hh
    unfold Registry.find_by_capability
    apply (sortByCmp_perm _ _).mem_iff.mpr
    exact List.mem_filterMap.mpr ⟨i, hi, by rw [hd, hh]⟩
  · refine (sortByCmp_pairwise Registry.cmpService Registry.cmpService_gt_asymm
      (fun x y z hxy hyz => ?_) _).imp ?_
    · unfold cmpLe at hxy hyz ⊢
      rw [Registry.cmpService_not_gt_iff] at hxy hyz ⊢
      exact Registry.svcLe_trans x y z hxy hyz
    · intro a b hab
      exact Registry.svcLe_spec a b ((Registry.cmpService_not_gt_iff a b).mp hab)
  · exact filter_sortByCmp Registry.cmpService _ Registry.nonHealthy_cmp_eq _

def c9DefA : Registry.ServiceDefinition := { id := 1, capabilities := ["monitor"] }

def c9DefB : Registry.ServiceDefinition := { id := 2, capabilities := ["monitor"] }

def c9St : Registry.RegistryState :=
  { services := [(1, c9DefA), (2, c9DefB)]
    capabilities_index := [("monitor", [1, 2])]
    health_tracker := [(1, { status := Registry.HealthStatus.Unhealthy, metrics := [] }),
      (2, { status := Registry.HealthStatus.Degraded, metrics := [] })] }

/-- Counterexample to claim C9 as stated: with an unhealthy service
registered before a degraded one, the unhealthy service comes first —
degraded does not precede unhealthy, because the comparator returns
`Equal` for every non-healthy pair and the stable sort keeps input order. -/
theorem c9_counterexample :
    (Registry.find_by_capability c9St "monitor").map (fun s => s.health.status)
      = [Registry.HealthStatus.Unhealthy, Registry.HealthStatus.Degraded] := by
  decide

theorem c9_witness :
    ({ definition := c9DefB,
       health := { status := Registry.HealthStatus.Degraded, metrics := [] } }
      : Registry.ServiceInfo) ∈ Registry.find_by_capability c9St "monitor" :=
  (c9_find_by_capability c9St "monitor").1 2 (by decide) c9DefB
    { status := Registry.HealthStatus.Degraded, metrics := [] } (by decide) (by decide)

/-! ## `crates/ai-ops-core/src/patterns`: pattern metrics -/

namespace Patterns

/-- `patterns/mod.rs` `PatternMetrics` (`average_resolution_time` is held in
whole seconds, matching the `as_secs`/`from_secs` round trip in the code;
`confidence_score: f64` is a rational). -/
structure PatternMetrics where
  application_count : Nat
  success_count : Nat
  failure_count : Nat
  average_resolution_time : Nat
  confidence_score : ℚ
  evolution_count : Nat
deriving DecidableEq

/-- `PatternMetrics::default`. -/
def defaultMetrics : PatternMetrics :=
  { application_count := 0, success_count := 0, failure_count := 0,
    average_resolution_time := 0, confidence_score := 1 / 2, evolution_count := 0 }

/-- `patterns/application.rs` `ApplicationResult` (fields not read by
`update_pattern_metrics` omitted; `duration` in whole seconds). -/
structure ApplicationResult where
  success : Bool
  duration : Nat
deriving DecidableEq

/-- The metrics mutation of `PatternLibrary::update_pattern_metrics`,
including its average-resolution-time computation: it multiplies the old
average by the *already incremented* count and divides by count + 1. -/
def update_pattern_metrics (m : PatternMetrics) (result : ApplicationResult) :
    PatternMetrics :=
  let application_count := m.application_count + 1
  let success_count := if result.success then m.success_count + 1 else m.success_count
  let failure_count := if result.success then m.failure_count else m.failure_count + 1
  let confidence_score := (success_count : ℚ) / (application_count : ℚ)
  let total_time := m.average_resolution_time * application_count
  let new_total := total_time + result.duration
  let average_resolution_time := new_total / (application_count + 1)
  { application_count := application_count
    success_count := success_count
    failure_count := failure_count
    average_resolution_time := average_resolution_time
    confidence_score := confidence_score
    evolution_count := m.evolution_count }

/-- The `patterns.get_mut(&pattern_id)` wrapper around the metrics update. -/
def update_pattern_metrics_in (patterns : List (Nat × PatternMetrics))
    (pattern_id : Nat) (result : ApplicationResult) : List (Nat × PatternMetrics) :=
  alistUpdate patterns pattern_id (fun m => update_pattern_metrics m result)

/-- Modelled from the spec: the running mean of the recorded application
durations, in whole seconds — what the spec says `avg_resolution_time`
holds. -/
def specRunningMean (durations : List Nat) : Nat :=
  (durations.foldl (fun a b => a + b) 0) / max durations.length 1

end Patterns

/-- Claim C10: the counter and confidence updates hold — `application_count`
increments, exactly one of `success_count`/`failure_count` increments, and
`confidence_score = success_count / application_count` — but the
average-resolution-time update is not the running mean: starting from
default metrics, one successful application of duration 10s stores an
average of 5s where the running mean of the recorded durations is 10s. -/
theorem c10_update_pattern_metrics :
    (∀ (m : Patterns.PatternMetrics) (r : Patterns.ApplicationResult),
      (Patterns.update_pattern_metrics m r).application_count
        = m.application_count + 1 ∧
      (Patterns.update_pattern_metrics m r).success_count
          + (Patterns.update_pattern_metrics m r).failure_count
        = m.success_count + m.failure_count + 1 ∧
      (Patterns.update_pattern_metrics m r).success_count
        = (if r.success then m.success_count + 1 else m.success_count) ∧
      (Patterns.update_pattern_metrics m r).confidence_score
        = ((Patterns.update_pattern_metrics m r).success_count : ℚ)
          / ((Patterns.update_pattern_metrics m r).application_count : ℚ)) ∧
    (Patterns.update_pattern_metrics Patterns.defaultMetrics
        { success := true, duration := 10 }).average_resolution_time = 5 ∧
    Patterns.specRunningMean [10] = 10 ∧
    (5 : Nat) ≠ 10 := by
  refine ⟨?_, rfl, rfl, by decide⟩
  intro m r
  refine ⟨rfl, ?_, rfl, rfl⟩
  cases hr : r.success <;> simp [Patterns.update_pattern_metrics, hr] <;> omega

end BookmarkOrganizer
